import Mathlib

/-! Verification development for `server/client.go` (im_service).

A shallow embedding of the per-connection read/write engine:

* `Client.onclose`, `Client.Read`      : the read goroutine and the close sequence;
* `Client.SendMessages`, `Client.Write` : the write goroutine and the pending-queue flush.

Conventions of the embedding.

* The mutable fields reached through a `*Client` (its `Connection` fields, the shared
  `ServerSummary`, the transport behind `conn`) are the record `Client`; every statement of
  the source is one state update, in source order.
* A channel is the list of the values buffered in it, oldest first.  A receive takes the
  head.  A send appends at the back when the buffer has a free slot; on a full buffer the
  sender blocks, and the code that sends reports that it is blocked there.
* A `select` is resolved by a schedule: the list of the cases the multiplex picks.  A picked
  case whose channel is empty is not a possible outcome and is skipped.  When the schedule is
  used up the goroutine is blocked in its `select`; the loops report that instead of a result.
* The transport is external.  Its `read()` results are an input list (a `none` entry is the
  `nil` / end-of-stream result); an exhausted list means `read()` has not returned.  Its
  `send` and `close` are recorded in the fields `sent` and `conn_closed`.
* The observer is external: two arbitrary state transformers.  What the code itself does is
  recorded, in order, in the `trace` of a `World`, which the observer cannot touch.
* The `int64` counters of the summary are `Int64`: an integer of the `int64` range, with
  `atomic.AddInt64` wrapping around as the machine does.  `uid`, `tc` and `closed` are only
  compared or stored, never added to, and are `Int`.
* The message pointers stored in a batch or in the pending queue are non-nil messages.
-/

namespace ImService

/-! ## Data model -/

/-- Side-channel metadata carried by a message (`*Metadata` in the protocol package, whose
declaration is outside `client.go`); the code only tests it for `nil` and forwards it. -/
structure Metadata where
  payload : List Nat
deriving DecidableEq, Repr

/-- The dynamically typed `Body` of a message (`interface{}`): nothing, some protocol body, or
a metadata value (what the synthesized metadata message carries). -/
inductive Payload where
  | empty
  | data (bytes : List Nat)
  | metadata (md : Metadata)
deriving DecidableEq, Repr

/-- Protocol message, with the fields `client.go` reads or writes. -/
structure Message where
  Cmd : Int
  Version : Int
  Body : Payload
  Meta : Option Metadata
deriving DecidableEq, Repr

/-- The command constants of the protocol package used by `client.go`.  Their numeric values
are declared outside `client.go`; they are a parameter of the embedding. -/
structure Protocol where
  MSG_RT : Int
  MSG_IM : Int
  MSG_GROUP_IM : Int
  MSG_ROOM_IM : Int
  MSG_METADATA : Int
deriving DecidableEq, Repr

/-- Two's-complement wrap-around of an integer into the `int64` range. -/
def wrapInt64 (x : Int) : Int :=
  (x + 9223372036854775808) % 18446744073709551616 - 9223372036854775808

/-- An `int64` value: an integer between `MinInt64` and `MaxInt64`. -/
structure Int64 where
  val : Int
  inRange : -9223372036854775808 ≤ val ∧ val < 9223372036854775808
deriving DecidableEq, Repr

/-- The `int64` with the given value (wrapped into the range). -/
def Int64.ofInt (x : Int) : Int64 :=
  ⟨wrapInt64 x, by unfold wrapInt64; omega⟩

/-- The value stored by `atomic.AddInt64(&x, d)`: the sum, wrapped around on overflow. -/
def Int64.add (x : Int64) (d : Int) : Int64 :=
  ⟨wrapInt64 (x.val + d), by unfold wrapInt64; omega⟩

/-- The shared counter aggregate `ServerSummary`. -/
structure ServerSummary where
  nconnections : Int64
  nclients : Int64
  out_message_count : Int64
deriving DecidableEq, Repr

/-- The capacity of the direct channel: `client.wt = make(chan *Message, 300)` in
`NewClient`. -/
def wtCapacity : Nat := 300

/-- State reached through a `*Client`: the `Connection` fields used by `client.go`, the shared
summary it points to, and the transport (`sent`: the arguments of `client.send`, oldest first;
`conn_closed`: the number of `client.close()` calls). -/
structure Client where
  uid : Int
  version : Int
  tc : Int
  closed : Int
  wt : List (Option Message)
  pwt : List (List Message)
  lwt : List Int
  messages : List Message
  server_summary : ServerSummary
  sent : List Message
  conn_closed : Nat
deriving DecidableEq, Repr

/-- The `ClientObserver` interface: external code, arbitrary state transformers. -/
structure ClientObserver where
  onClientMessage : Client → Message → Client
  onClientClose : Client → Client

/-- The log statements of `client.go`. -/
inductive LogLine where
  | quit_read
  | read_timeout
  | handle_slow
  | socket_closed
  | msg_dropped
  | write_exit
deriving DecidableEq, Repr

/-- Effects performed by the code of `client.go`, as recorded in the trace. -/
inductive Event where
  | addConnections (d : Int)
  | addClients (d : Int)
  | storeClosed (v : Int)
  | wtSend (m : Option Message)
  | onClientClose
  | onClientMessage (msg : Message)
  | read (result : Option Message)
  | close
  | log (l : LogLine)
deriving DecidableEq, Repr

/-- A client together with the trace of what the code has done so far. -/
structure World where
  client : Client
  trace : List Event
deriving DecidableEq, Repr

/-- The cases a `select` of `Write` can pick. -/
inductive Select where
  | wt
  | pwt
  | lwt
  | timer
deriving DecidableEq, Repr

/-- Where a run of `Read` stands: blocked in `client.read()`, blocked in the sentinel send of
the close sequence, or returned. -/
inductive ReadStatus where
  | reading
  | closing
  | exited
deriving DecidableEq, Repr

/-- Where a run of `Write` stands when its schedule is used up. -/
inductive Phase where
  | main
  | drain
  | exited
deriving DecidableEq, Repr

/-! ## Primitives supplied by `Connection` and the runtime -/

/-- Modelled from the spec: the transport's `send(Message)` (`client.send`, defined outside
`client.go`): the message is handed to the transport, after all earlier ones. -/
def Client.send (client : Client) (m : Message) : Client :=
  { client with sent := client.sent ++ [m] }

/-- Modelled from the spec: the transport's `close()` (`client.close`, defined outside
`client.go`). -/
def Client.close (client : Client) : Client :=
  { client with conn_closed := client.conn_closed + 1 }

/-- `atomic.AddInt64(&client.server_summary.out_message_count, d)`. -/
def Client.addOutMessageCount (client : Client) (d : Int) : Client :=
  { client with server_summary :=
      { client.server_summary with
        out_message_count := client.server_summary.out_message_count.add d } }

/-- Append one event to the trace. -/
def World.emit (w : World) (e : Event) : World :=
  { w with trace := w.trace ++ [e] }

/-- `atomic.AddInt64(&client.server_summary.nconnections, d)`. -/
def World.addConnections (w : World) (d : Int) : World :=
  { client := { w.client with server_summary :=
      { w.client.server_summary with
        nconnections := w.client.server_summary.nconnections.add d } },
    trace := w.trace ++ [Event.addConnections d] }

/-- `atomic.AddInt64(&client.server_summary.nclients, d)`. -/
def World.addClients (w : World) (d : Int) : World :=
  { client := { w.client with server_summary :=
      { w.client.server_summary with nclients := w.client.server_summary.nclients.add d } },
    trace := w.trace ++ [Event.addClients d] }

/-- `atomic.StoreInt32(&client.closed, v)`. -/
def World.storeClosed (w : World) (v : Int) : World :=
  { client := { w.client with closed := v }, trace := w.trace ++ [Event.storeClosed v] }

/-- `client.wt <- m`: a blocking send into the buffered direct channel.  With a free slot the
value is buffered; on a full buffer the send does not complete (`none`). -/
def World.wtSend (w : World) (m : Option Message) : Option World :=
  if w.client.wt.length < wtCapacity then
    some { client := { w.client with wt := w.client.wt ++ [m] },
           trace := w.trace ++ [Event.wtSend m] }
  else
    none

/-! ## The close sequence and the read loop -/

/-- `func (client *Client) onclose()`.  Result: the world, and whether the function has
returned (`false`: it is blocked in the sentinel send, the handler not yet called). -/
def Client.onclose (observer : ClientObserver) (w : World) : World × Bool :=
  let w := w.addConnections (-1)
  let w := if w.client.uid > 0 then w.addClients (-1) else w
  let w := w.storeClosed 1
  -- write goroutine will quit when it receives nil
  match w.wtSend none with
  | none => (w, false)
  | some w =>
    ({ client := observer.onClientClose w.client, trace := w.trace ++ [Event.onClientClose] },
      true)

/-- The state of the read loop after its call of `onclose` and the `break` behind it: exited
when `onclose` has returned, otherwise blocked inside it. -/
def Client.Read.afterClose (r : World × Bool) (inbound : List (Option Message)) :
    World × List (Option Message) × ReadStatus :=
  (r.1, inbound, if r.2 then ReadStatus.exited else ReadStatus.closing)

/-- The `for` loop of `Read`, entered for the `i`-th time (from 0) with `inbound` the results
the transport's `read()` will give.  `now k` is the value of the `k`-th call of
`time.Now().Unix()`.  Result: the world, the read results not consumed, and where the loop
stands. -/
def Client.Read.loop (observer : ClientObserver) (now : Nat → Int) :
    Nat → List (Option Message) → World → World × List (Option Message) × ReadStatus
  | _, [], w =>
    if w.client.tc > 0 then
      Client.Read.afterClose (Client.onclose observer (w.emit (Event.log LogLine.quit_read))) []
    else
      (w, [], ReadStatus.reading)
  | i, msg :: inbound, w =>
    if w.client.tc > 0 then
      Client.Read.afterClose (Client.onclose observer (w.emit (Event.log LogLine.quit_read)))
        (msg :: inbound)
    else
      let t1 := now (3 * i)
      let w := w.emit (Event.read msg)
      let t2 := now (3 * i + 1)
      let w := if t2 - t1 > 6 * 60 then w.emit (Event.log LogLine.read_timeout) else w
      match msg with
      | none => Client.Read.afterClose (Client.onclose observer w) inbound
      | some m =>
        let w : World :=
          { client := observer.onClientMessage w.client m,
            trace := w.trace ++ [Event.onClientMessage m] }
        let t3 := now (3 * i + 2)
        let w := if t3 - t2 > 2 then w.emit (Event.log LogLine.handle_slow) else w
        Client.Read.loop observer now (i + 1) inbound w

/-- `func (client *Client) Read()`. -/
def Client.Read (observer : ClientObserver) (now : Nat → Int)
    (inbound : List (Option Message)) (w : World) :
    World × List (Option Message) × ReadStatus :=
  let w := w.addConnections 1
  Client.Read.loop observer now 0 inbound w

/-! ## The pending-queue flush and the write loop -/

/-- One iteration of the `for e != nil` loop of `SendMessages` on the element `msg`. -/
def Client.SendMessages.body (p : Protocol) (msg : Message) (client : Client) : Client :=
  let client :=
    if msg.Cmd = p.MSG_RT ∨ msg.Cmd = p.MSG_IM ∨
        msg.Cmd = p.MSG_GROUP_IM ∨ msg.Cmd = p.MSG_ROOM_IM then
      client.addOutMessageCount 1
    else client
  let client :=
    match msg.Meta with
    | some md =>
      client.send
        { Cmd := p.MSG_METADATA, Version := client.version, Body := Payload.metadata md,
          Meta := none }
    | none => client
  client.send msg

/-- The loop `e := messages.Front(); for e != nil { ...; e = e.Next() }` of `SendMessages`. -/
def Client.SendMessages.loop (p : Protocol) : List Message → Client → Client
  | [], client => client
  | msg :: rest, client =>
    Client.SendMessages.loop p rest (Client.SendMessages.body p msg client)

/-- `func (client *Client) SendMessages()`. -/
def Client.SendMessages (p : Protocol) (client : Client) : Client :=
  if client.messages.length = 0 then
    client
  else
    let messages := client.messages
    let client := { client with messages := [] }
    Client.SendMessages.loop p messages client

/-- The first `for running` loop of `Write`.  Result: the world, the part of the schedule not
used, and the value of `running` (still `true` when the schedule ran out in the `select`). -/
def Client.Write.main (p : Protocol) : List Select → World → World × List Select × Bool
  | [], w => (w, [], true)
  | Select.wt :: sched, w =>
    match w.client.wt with
    | [] => Client.Write.main p sched w
    | none :: q =>
      let client := { w.client with wt := q }
      let client := client.close
      ({ client := client,
         trace := w.trace ++ [Event.close, Event.log LogLine.socket_closed] }, sched, false)
    | some msg :: q =>
      let client := { w.client with wt := q }
      let client :=
        if msg.Cmd = p.MSG_RT ∨ msg.Cmd = p.MSG_IM ∨
            msg.Cmd = p.MSG_GROUP_IM ∨ msg.Cmd = p.MSG_ROOM_IM then
          client.addOutMessageCount 1
        else client
      let client :=
        match msg.Meta with
        | some md =>
          client.send
            { Cmd := p.MSG_METADATA, Version := client.version, Body := Payload.metadata md,
              Meta := none }
        | none => client
      let client := client.send msg
      Client.Write.main p sched { w with client := client }
  | Select.pwt :: sched, w =>
    match w.client.pwt with
    | [] => Client.Write.main p sched w
    | messages :: q =>
      let client := { w.client with pwt := q }
      let client :=
        messages.foldl
          (fun client msg =>
            let client :=
              if msg.Cmd = p.MSG_RT ∨ msg.Cmd = p.MSG_IM ∨
                  msg.Cmd = p.MSG_GROUP_IM ∨ msg.Cmd = p.MSG_ROOM_IM then
                client.addOutMessageCount 1
              else client
            let client :=
              match msg.Meta with
              | some md =>
                client.send
                  { Cmd := p.MSG_METADATA, Version := client.version,
                    Body := Payload.metadata md, Meta := none }
              | none => client
            client.send msg)
          client
      Client.Write.main p sched { w with client := client }
  | Select.lwt :: sched, w =>
    match w.client.lwt with
    | [] => Client.Write.main p sched w
    | _ :: q =>
      let client := { w.client with lwt := q }
      Client.Write.main p sched { w with client := Client.SendMessages p client }
  | Select.timer :: sched, w => Client.Write.main p sched w

/-- The second `for running` loop of `Write` (after `t := time.After(200ms)`): `timer` is the
case `<-t`.  Result as for `Client.Write.main`. -/
def Client.Write.drain : List Select → World → World × List Select × Bool
  | [], w => (w, [], true)
  | Select.timer :: sched, w => (w, sched, false)
  | Select.wt :: sched, w =>
    match w.client.wt with
    | [] => Client.Write.drain sched w
    | _ :: q =>
      Client.Write.drain sched
        { client := { w.client with wt := q },
          trace := w.trace ++ [Event.log LogLine.msg_dropped] }
  | Select.pwt :: sched, w => Client.Write.drain sched w
  | Select.lwt :: sched, w => Client.Write.drain sched w

/-- `func (client *Client) Write()`. -/
def Client.Write (p : Protocol) (sched : List Select) (w : World) :
    World × List Select × Phase :=
  match Client.Write.main p sched w with
  | (w, rest, true) => (w, rest, Phase.main)
  | (w, rest, false) =>
    match Client.Write.drain rest w with
    | (w, rest, true) => (w, rest, Phase.drain)
    | (w, rest, false) => (w.emit (Event.log LogLine.write_exit), rest, Phase.exited)

/-! ## Specification-side definitions

These follow the wording of the specification, to be compared with the code above. -/

/-- The synthesized metadata message: command `MSG_METADATA`, the negotiated version, and the
metadata as body. -/
def metaMessage (p : Protocol) (version : Int) (md : Metadata) : Message :=
  { Cmd := p.MSG_METADATA, Version := version, Body := Payload.metadata md, Meta := none }

/-- The delivery rule as the specification words it: what the transport receives when `m` is
delivered, the metadata message first when `m` carries `Meta`. -/
def wire (p : Protocol) (version : Int) (m : Message) : List Message :=
  match m.Meta with
  | some md => [metaMessage p version md, m]
  | none => [m]

/-- The counted kinds: real-time, peer IM, group IM, room IM. -/
def counted (p : Protocol) (m : Message) : Bool :=
  decide (m.Cmd = p.MSG_RT ∨ m.Cmd = p.MSG_IM ∨ m.Cmd = p.MSG_GROUP_IM ∨ m.Cmd = p.MSG_ROOM_IM)

/-- The state after the list `ms` has been delivered according to the delivery rule: the
transport has received the wire form of each message in order and the outbound counter has
grown by the number of counted messages. -/
def Client.delivered (p : Protocol) (ms : List Message) (c : Client) : Client :=
  { c with
    sent := c.sent ++ ms.flatMap (wire p c.version),
    server_summary :=
      { c.server_summary with
        out_message_count :=
          c.server_summary.out_message_count.add (ms.countP (counted p) : Nat) } }

/-- The messages the main phase of the write loop hands to the delivery rule, in order, when
it follows the schedule from the given channel contents and pending queue. -/
def handledFrom : List Select → List (Option Message) → List (List Message) → List Int →
    List Message → List Message
  | [], _, _, _, _ => []
  | Select.wt :: s, [], pwt, lwt, q => handledFrom s [] pwt lwt q
  | Select.wt :: _, none :: _, _, _, _ => []
  | Select.wt :: s, some m :: wt, pwt, lwt, q => m :: handledFrom s wt pwt lwt q
  | Select.pwt :: s, wt, [], lwt, q => handledFrom s wt [] lwt q
  | Select.pwt :: s, wt, ms :: pwt, lwt, q => ms ++ handledFrom s wt pwt lwt q
  | Select.lwt :: s, wt, pwt, [], q => handledFrom s wt pwt [] q
  | Select.lwt :: s, wt, pwt, _ :: lwt, q => q ++ handledFrom s wt pwt lwt []
  | Select.timer :: s, wt, pwt, lwt, q => handledFrom s wt pwt lwt q

/-- The messages handed to the delivery rule by a run of the write loop from client `c`. -/
def Client.Write.handled (sched : List Select) (c : Client) : List Message :=
  handledFrom sched c.wt c.pwt c.lwt c.messages

/-- The part of a schedule before the first pick of the grace timer. -/
def beforeTimer (sched : List Select) : List Select :=
  sched.takeWhile (fun ch => decide (ch ≠ Select.timer))

/-- The part of a schedule after the first pick of the grace timer (empty when the timer is
never picked). -/
def afterTimer (sched : List Select) : List Select :=
  (sched.dropWhile (fun ch => decide (ch ≠ Select.timer))).tail

/-- The number of direct-channel receives of the shutdown phase: the picks of the direct
channel before the timer fires, as far as the channel (holding `n` values) can serve them. -/
def dropCount (sched : List Select) (n : Nat) : Nat :=
  min ((beforeTimer sched).count Select.wt) n

/-- Steps 1 to 3 of the close sequence as the specification lists them, as one state change:
connections minus one, clients minus one when `uid` is set, `closed` set. -/
def closing (c : Client) : Client :=
  { c with
    server_summary :=
      { c.server_summary with
        nconnections := c.server_summary.nconnections.add (-1),
        nclients :=
          if c.uid > 0 then c.server_summary.nclients.add (-1) else c.server_summary.nclients },
    closed := 1 }

/-- Step 4 of the close sequence: the sentinel buffered in the direct channel. -/
def sentinelSent (c : Client) : Client :=
  { c with wt := c.wt ++ [none] }

/-- The effects of steps 1 to 3 of one close sequence on a client with the given `uid`. -/
def closingEvents (uid : Int) : List Event :=
  [Event.addConnections (-1)] ++ (if uid > 0 then [Event.addClients (-1)] else []) ++
    [Event.storeClosed 1]

/-- The effects of one completed close sequence on a client with the given `uid`, in order. -/
def closeEvents (uid : Int) : List Event :=
  closingEvents uid ++ [Event.wtSend none, Event.onClientClose]

/-- The effects of the close sequence of a read loop that stands at the given status: none
while it is reading, steps 1 to 3 while it is blocked in the sentinel send, all of them once
it has exited. -/
def statusEvents : ReadStatus → Int → List Event
  | ReadStatus.reading, _ => []
  | ReadStatus.closing, uid => closingEvents uid
  | ReadStatus.exited, uid => closeEvents uid

/-- Where the read loop stands after a close sequence started on client `c`: exited when the
direct channel had a free slot for the sentinel, blocked in the send otherwise. -/
def closeStatus (c : Client) : ReadStatus :=
  if c.wt.length < wtCapacity then ReadStatus.exited else ReadStatus.closing

/-- The client as it is when the read loop reaches its close sequence (or runs out of read
results): the handler applied to the messages read up to there. -/
def clientAtClose (observer : ClientObserver) : List (Option Message) → Client → Client
  | [], c => c
  | none :: _, c => c
  | some m :: rest, c =>
    if c.tc > 0 then c else clientAtClose observer rest (observer.onClientMessage c m)

/-- The effects of the `i`-th transport read of the read loop with result `r`: the read and
its advisory diagnostic. -/
def readEvents (now : Nat → Int) (i : Nat) (r : Option Message) : List Event :=
  [Event.read r] ++
    (if now (3 * i + 1) - now (3 * i) > 6 * 60 then [Event.log LogLine.read_timeout] else [])

/-- The effects of handing the `i`-th read message to the handler: the call and its advisory
diagnostic. -/
def handleEvents (now : Nat → Int) (i : Nat) (m : Message) : List Event :=
  [Event.onClientMessage m] ++
    (if now (3 * i + 2) - now (3 * i + 1) > 2 then [Event.log LogLine.handle_slow] else [])

/-- The events by which the read loop talks to the transport's read side and to the handler. -/
def isDispatch : Event → Bool
  | Event.read _ => true
  | Event.onClientMessage _ => true
  | Event.onClientClose => true
  | _ => false

/-- The effects of the read loop, entered for the `i`-th time, on the consecutive read
results `ms` (all messages): each message is read and handed to the handler before the next
read. -/
def loopEvents (now : Nat → Int) : Nat → List Message → List Event
  | _, [] => []
  | i, m :: ms => readEvents now i (some m) ++ handleEvents now i m ++ loopEvents now (i + 1) ms

/-! ## Interleaving of producers with a flush

The pending queue is shared with producers.  `SendMessages` is cut at the places where another
goroutine can run: its lock section is one step, every iteration of its delivery loop is one
step. -/

/-- Modelled from the spec: the append-to-pending operation of a producer, implemented outside
`client.go`: a lock-protected append to the live pending queue plus a non-blocking,
drop-if-full push of a wake token (the wake channel has capacity 1). -/
def Client.appendPending (c : Client) (m : Message) : Client :=
  { c with
    messages := c.messages ++ [m],
    lwt := if c.lwt.length < 1 then c.lwt ++ [1] else c.lwt }

/-- A client with the progress of the flush of its write goroutine: `taken` is the local list
`messages` of a running `SendMessages` from the cursor `e` on, `none` when no flush runs. -/
structure FlushState where
  client : Client
  taken : Option (List Message)
deriving DecidableEq, Repr

/-- The atomic steps of producers and of the flushing write goroutine. -/
inductive FlushStep where
  | append (m : Message)
  | swap
  | deliver
deriving DecidableEq, Repr

/-- One atomic step.  `append`: a producer appends.  `swap`: the lock section of
`SendMessages` (taken by the single write goroutine, so only when no flush runs).  `deliver`:
one test of `e != nil` with the iteration it guards. -/
def FlushState.step (p : Protocol) (s : FlushState) : FlushStep → FlushState
  | FlushStep.append m => { s with client := s.client.appendPending m }
  | FlushStep.swap =>
    match s.taken with
    | some _ => s
    | none =>
      if s.client.messages.length = 0 then s
      else
        { client := { s.client with messages := [] }, taken := some s.client.messages }
  | FlushStep.deliver =>
    match s.taken with
    | none => s
    | some [] => { s with taken := none }
    | some (msg :: rest) =>
      { client := Client.SendMessages.body p msg s.client, taken := some rest }

/-- A run of atomic steps, in the order of the interleaving. -/
def FlushState.run (p : Protocol) (steps : List FlushStep) (s : FlushState) : FlushState :=
  steps.foldl (FlushState.step p) s

/-- The messages appended by the producers in an interleaving, in append order. -/
def appendsOf (steps : List FlushStep) : List Message :=
  steps.filterMap (fun st => match st with
    | FlushStep.append m => some m
    | _ => none)

/-- The steps of one flush that nothing interrupts, for a queue of `n` messages. -/
def flushSteps (n : Nat) : List FlushStep :=
  FlushStep.swap :: List.replicate (n + 1) FlushStep.deliver

/-! ## Sample values -/

/-- A sample assignment of the command constants. -/
def demoProtocol : Protocol :=
  { MSG_RT := 17, MSG_IM := 4, MSG_GROUP_IM := 8, MSG_ROOM_IM := 20, MSG_METADATA := 37 }

/-- A sample peer-IM message carrying metadata. -/
def demoMsg : Message :=
  { Cmd := 4, Version := 1, Body := Payload.data [1], Meta := some ⟨[9]⟩ }

/-- A sample authenticated client with empty channels and an empty pending queue. -/
def demoClient : Client :=
  { uid := 7, version := 1, tc := 0, closed := 0, wt := [], pwt := [], lwt := [],
    messages := [], server_summary := ⟨Int64.ofInt 3, Int64.ofInt 2, Int64.ofInt 10⟩,
    sent := [], conn_closed := 0 }

/-- A sample client whose outbound counter stands at `MaxInt64`. -/
def maxedClient : Client :=
  { demoClient with
    server_summary := ⟨Int64.ofInt 3, Int64.ofInt 2, Int64.ofInt 9223372036854775807⟩ }

/-- A sample client whose direct channel is full and whose connection counter stands at
`MinInt64`. -/
def stuckClient : Client :=
  { demoClient with
    wt := List.replicate 300 (some demoMsg),
    server_summary := ⟨Int64.ofInt (-9223372036854775808), Int64.ofInt 2, Int64.ofInt 10⟩ }

/-- A sample client whose writer is backlogged: the direct channel is full and the throttle
flag is set. -/
def throttledClient : Client :=
  { demoClient with wt := List.replicate 300 (some demoMsg), tc := 1 }

/-- A sample client whose direct channel is full while the throttle flag is not set. -/
def fullClient : Client :=
  { demoClient with wt := List.replicate 300 (some demoMsg) }

/-- A sample observer that leaves the client as it is. -/
def demoObserver : ClientObserver :=
  { onClientMessage := fun c _ => c, onClientClose := fun c => c }

/-- A sample clock that stands still. -/
def demoClock : Nat → Int := fun _ => 0

/-! ## Lemmas on `int64` arithmetic -/

theorem wrapInt64_of_range (x : Int)
    (h : -9223372036854775808 ≤ x ∧ x < 9223372036854775808) : wrapInt64 x = x := by
  unfold wrapInt64
  omega

theorem wrapInt64_add (x y : Int) : wrapInt64 (wrapInt64 x + y) = wrapInt64 (x + y) := by
  unfold wrapInt64
  omega

theorem Int64.ext_val {a b : Int64} (h : a.val = b.val) : a = b := by
  cases a
  cases b
  simp_all

theorem Int64.add_zero (x : Int64) : x.add 0 = x := by
  apply Int64.ext_val
  simp [Int64.add, wrapInt64_of_range _ x.inRange]

theorem Int64.add_add (x : Int64) (a b : Int) : (x.add a).add b = x.add (a + b) := by
  apply Int64.ext_val
  simp [Int64.add, wrapInt64_add, add_assoc]

theorem Int64.add_val (x : Int64) (d : Int) : (x.add d).val = wrapInt64 (x.val + d) := rfl

/-! ## Lemmas on the delivery rule -/

theorem delivered_nil (p : Protocol) (c : Client) : c.delivered p [] = c := by
  cases c
  simp [Client.delivered, Int64.add_zero]

theorem delivered_append (p : Protocol) (a b : List Message) (c : Client) :
    c.delivered p (a ++ b) = (c.delivered p a).delivered p b := by
  simp [Client.delivered, List.countP_append, List.append_assoc, Int64.add_add]

theorem body_eq_delivered (p : Protocol) (m : Message) (c : Client) :
    Client.SendMessages.body p m c = c.delivered p [m] := by
  unfold Client.SendMessages.body Client.delivered
  by_cases hk : m.Cmd = p.MSG_RT ∨ m.Cmd = p.MSG_IM ∨ m.Cmd = p.MSG_GROUP_IM ∨ m.Cmd = p.MSG_ROOM_IM
  · cases hm : m.Meta <;>
      simp [hk, hm, wire, counted, metaMessage, Client.send, Client.addOutMessageCount]
  · cases hm : m.Meta <;>
      simp [hk, hm, wire, counted, metaMessage, Client.send, Client.addOutMessageCount,
        Int64.add_zero]

theorem loop_eq_delivered (p : Protocol) (ms : List Message) (c : Client) :
    Client.SendMessages.loop p ms c = c.delivered p ms := by
  induction ms generalizing c with
  | nil => simp [Client.SendMessages.loop, delivered_nil]
  | cons m rest ih =>
    have h : m :: rest = [m] ++ rest := rfl
    rw [Client.SendMessages.loop, ih, body_eq_delivered, h, delivered_append]

theorem foldl_body_eq_delivered (p : Protocol) (ms : List Message) (c : Client) :
    ms.foldl (fun client msg => Client.SendMessages.body p msg client) c = c.delivered p ms := by
  induction ms generalizing c with
  | nil => simp [delivered_nil]
  | cons m rest ih =>
    have h : m :: rest = [m] ++ rest := rfl
    rw [List.foldl_cons, ih, body_eq_delivered, h, delivered_append]

theorem SendMessages_eq (p : Protocol) (c : Client) :
    Client.SendMessages p c = ({ c with messages := [] } : Client).delivered p c.messages := by
  unfold Client.SendMessages
  by_cases h : c.messages.length = 0
  · have h0 : c.messages = [] := List.length_eq_zero.mp h
    rw [if_pos h, h0, delivered_nil]
    cases c
    simp_all
  · rw [if_neg h]
    exact loop_eq_delivered p c.messages _

/-! ## Lemmas on the write loop -/

theorem main_wt_empty (p : Protocol) (s : List Select) (w : World) (h : w.client.wt = []) :
    Client.Write.main p (Select.wt :: s) w = Client.Write.main p s w := by
  rw [Client.Write.main]
  simp only [h]

theorem main_wt_nil (p : Protocol) (s : List Select) (w : World) (q : List (Option Message))
    (h : w.client.wt = none :: q) :
    Client.Write.main p (Select.wt :: s) w =
      ({ client := ({ w.client with wt := q } : Client).close,
         trace := w.trace ++ [Event.close, Event.log LogLine.socket_closed] }, s, false) := by
  rw [Client.Write.main]
  simp only [h]

theorem main_wt_some (p : Protocol) (s : List Select) (w : World) (m : Message)
    (q : List (Option Message)) (h : w.client.wt = some m :: q) :
    Client.Write.main p (Select.wt :: s) w =
      Client.Write.main p s
        { w with client := ({ w.client with wt := q } : Client).delivered p [m] } := by
  rw [Client.Write.main]
  simp only [h]
  rw [← body_eq_delivered]
  rfl

theorem main_pwt_empty (p : Protocol) (s : List Select) (w : World) (h : w.client.pwt = []) :
    Client.Write.main p (Select.pwt :: s) w = Client.Write.main p s w := by
  rw [Client.Write.main]
  simp only [h]

theorem main_pwt_cons (p : Protocol) (s : List Select) (w : World) (ms : List Message)
    (q : List (List Message)) (h : w.client.pwt = ms :: q) :
    Client.Write.main p (Select.pwt :: s) w =
      Client.Write.main p s
        { w with client := ({ w.client with pwt := q } : Client).delivered p ms } := by
  rw [Client.Write.main]
  simp only [h]
  rw [← foldl_body_eq_delivered]
  rfl

theorem main_lwt_empty (p : Protocol) (s : List Select) (w : World) (h : w.client.lwt = []) :
    Client.Write.main p (Select.lwt :: s) w = Client.Write.main p s w := by
  rw [Client.Write.main]
  simp only [h]

theorem main_lwt_cons (p : Protocol) (s : List Select) (w : World) (t : Int)
    (q : List Int) (h : w.client.lwt = t :: q) :
    Client.Write.main p (Select.lwt :: s) w =
      Client.Write.main p s
        { w with client :=
            ({ w.client with lwt := q, messages := [] } : Client).delivered p w.client.messages } := by
  rw [Client.Write.main]
  simp only [h]
  rw [SendMessages_eq]

theorem main_timer (p : Protocol) (s : List Select) (w : World) :
    Client.Write.main p (Select.timer :: s) w = Client.Write.main p s w := by
  rw [Client.Write.main]

/-- The main phase changes the transport log and the counters exactly as delivering the
handled messages does, and never changes the negotiated version. -/
theorem main_spec (p : Protocol) (sched : List Select) (w : World) :
    (Client.Write.main p sched w).1.client.version = w.client.version ∧
    (Client.Write.main p sched w).1.client.sent =
      w.client.sent ++ (Client.Write.handled sched w.client).flatMap (wire p w.client.version) ∧
    (Client.Write.main p sched w).1.client.server_summary =
      { w.client.server_summary with
        out_message_count := w.client.server_summary.out_message_count.add
          (((Client.Write.handled sched w.client).countP (counted p) : Nat) : Int) } := by
  induction sched generalizing w with
  | nil => simp [Client.Write.main, Client.Write.handled, handledFrom, Int64.add_zero]
  | cons ch s ih =>
    cases ch with
    | wt =>
      cases hq : w.client.wt with
      | nil =>
        rw [main_wt_empty p s w hq]
        have := ih w
        simpa [Client.Write.handled, handledFrom, hq] using this
      | cons x q =>
        cases x with
        | none =>
          rw [main_wt_nil p s w q hq]
          simp [Client.Write.handled, handledFrom, hq, Client.close, Int64.add_zero]
        | some m =>
          rw [main_wt_some p s w m q hq]
          have := ih { w with client := ({ w.client with wt := q } : Client).delivered p [m] }
          simp only [Client.Write.handled, Client.delivered] at this
          simp only [Client.Write.handled, handledFrom, hq]
          obtain ⟨h1, h2, h3⟩ := this
          refine ⟨h1, h2.trans ?_, h3.trans ?_⟩
          · simp [List.append_assoc]
          · simp [List.countP_cons, Int64.add_add, add_comm]
    | pwt =>
      cases hq : w.client.pwt with
      | nil =>
        rw [main_pwt_empty p s w hq]
        have := ih w
        simpa [Client.Write.handled, handledFrom, hq] using this
      | cons ms q =>
        rw [main_pwt_cons p s w ms q hq]
        have := ih { w with client := ({ w.client with pwt := q } : Client).delivered p ms }
        simp only [Client.Write.handled, Client.delivered] at this
        simp only [Client.Write.handled, handledFrom, hq]
        obtain ⟨h1, h2, h3⟩ := this
        refine ⟨h1, h2.trans ?_, h3.trans ?_⟩
        · simp [List.append_assoc]
        · simp [List.countP_append, Int64.add_add]
    | lwt =>
      cases hq : w.client.lwt with
      | nil =>
        rw [main_lwt_empty p s w hq]
        have := ih w
        simpa [Client.Write.handled, handledFrom, hq] using this
      | cons t q =>
        rw [main_lwt_cons p s w t q hq]
        have := ih { w with client :=
          ({ w.client with lwt := q, messages := [] } : Client).delivered p w.client.messages }
        simp only [Client.Write.handled, Client.delivered] at this
        simp only [Client.Write.handled, handledFrom, hq]
        obtain ⟨h1, h2, h3⟩ := this
        refine ⟨h1, h2.trans ?_, h3.trans ?_⟩
        · simp [List.append_assoc]
        · simp [List.countP_append, Int64.add_add]
    | timer =>
      rw [main_timer p s w]
      have := ih w
      simpa [Client.Write.handled, handledFrom] using this

theorem main_exit (p : Protocol) (sched : List Select) (w : World) :
    (Client.Write.main p sched w).1.trace =
      w.trace ++ (if (Client.Write.main p sched w).2.2 then []
                  else [Event.close, Event.log LogLine.socket_closed]) ∧
    (Client.Write.main p sched w).1.client.conn_closed =
      w.client.conn_closed + (if (Client.Write.main p sched w).2.2 then 0 else 1) := by
  induction sched generalizing w with
  | nil => simp [Client.Write.main]
  | cons ch s ih =>
    cases ch with
    | wt =>
      cases hq : w.client.wt with
      | nil => rw [main_wt_empty p s w hq]; exact ih w
      | cons x q =>
        cases x with
        | none => rw [main_wt_nil p s w q hq]; simp [Client.close]
        | some m => rw [main_wt_some p s w m q hq]; exact ih _
    | pwt =>
      cases hq : w.client.pwt with
      | nil => rw [main_pwt_empty p s w hq]; exact ih w
      | cons ms q => rw [main_pwt_cons p s w ms q hq]; exact ih _
    | lwt =>
      cases hq : w.client.lwt with
      | nil => rw [main_lwt_empty p s w hq]; exact ih w
      | cons t q => rw [main_lwt_cons p s w t q hq]; exact ih _
    | timer => rw [main_timer p s w]; exact ih w

theorem drain_spec (sched : List Select) (w : World) :
    Client.Write.drain sched w =
      ({ client := { w.client with wt := w.client.wt.drop (dropCount sched w.client.wt.length) },
         trace := w.trace ++
           List.replicate (dropCount sched w.client.wt.length) (Event.log LogLine.msg_dropped) },
       afterTimer sched, decide (Select.timer ∉ sched)) := by
  induction sched generalizing w with
  | nil => simp [Client.Write.drain, dropCount, beforeTimer, afterTimer]
  | cons ch s ih =>
    cases ch with
    | timer => simp [Client.Write.drain, dropCount, beforeTimer, afterTimer]
    | wt =>
      cases hq : w.client.wt with
      | nil =>
        rw [Client.Write.drain]
        simp only [hq]
        rw [ih w]
        simp [dropCount, beforeTimer, afterTimer, hq]
      | cons x q =>
        rw [Client.Write.drain]
        simp only [hq]
        rw [ih]
        simp [dropCount, beforeTimer, afterTimer, List.replicate_succ, Nat.succ_min_succ]
    | pwt =>
      rw [Client.Write.drain, ih w]
      simp [dropCount, beforeTimer, afterTimer]
    | lwt =>
      rw [Client.Write.drain, ih w]
      simp [dropCount, beforeTimer, afterTimer]

/-! ## Lemmas on the close sequence and the read loop -/

theorem onclose_eq (observer : ClientObserver) (w : World) :
    Client.onclose observer w =
      if w.client.wt.length < wtCapacity then
        ({ client := observer.onClientClose (sentinelSent (closing w.client)),
           trace := w.trace ++ closeEvents w.client.uid }, true)
      else
        ({ client := closing w.client, trace := w.trace ++ closingEvents w.client.uid }, false) := by
  unfold Client.onclose closing closeEvents closingEvents sentinelSent
  by_cases h : w.client.uid > 0 <;> by_cases hs : w.client.wt.length < wtCapacity <;>
    simp [h, hs, World.addConnections, World.addClients, World.storeClosed, World.wtSend]

theorem afterClose_eq (observer : ClientObserver) (w : World)
    (inbound : List (Option Message)) :
    Client.Read.afterClose (Client.onclose observer w) inbound =
      ({ client :=
           if w.client.wt.length < wtCapacity then
             observer.onClientClose (sentinelSent (closing w.client))
           else closing w.client,
         trace := w.trace ++ statusEvents (closeStatus w.client) w.client.uid },
        inbound, closeStatus w.client) := by
  rw [onclose_eq]
  unfold Client.Read.afterClose closeStatus
  by_cases hs : w.client.wt.length < wtCapacity <;> simp [hs, statusEvents]

theorem loop_throttle (observer : ClientObserver) (now : Nat → Int) (i : Nat)
    (inbound : List (Option Message)) (w : World) (h : w.client.tc > 0) :
    Client.Read.loop observer now i inbound w =
      Client.Read.afterClose
        (Client.onclose observer (w.emit (Event.log LogLine.quit_read))) inbound := by
  cases inbound <;> simp [Client.Read.loop, h]

theorem loop_blocked (observer : ClientObserver) (now : Nat → Int) (i : Nat)
    (w : World) (h : ¬ w.client.tc > 0) :
    Client.Read.loop observer now i [] w = (w, [], ReadStatus.reading) := by
  simp [Client.Read.loop, h]

theorem loop_eof (observer : ClientObserver) (now : Nat → Int) (i : Nat)
    (inbound : List (Option Message)) (w : World) (h : ¬ w.client.tc > 0) :
    Client.Read.loop observer now i (none :: inbound) w =
      Client.Read.afterClose
        (Client.onclose observer { w with trace := w.trace ++ readEvents now i none })
        inbound := by
  rw [Client.Read.loop]
  simp only [h, if_false]
  unfold readEvents World.emit
  split <;> simp

theorem loop_message (observer : ClientObserver) (now : Nat → Int) (i : Nat) (m : Message)
    (inbound : List (Option Message)) (w : World) (h : ¬ w.client.tc > 0) :
    Client.Read.loop observer now i (some m :: inbound) w =
      Client.Read.loop observer now (i + 1) inbound
        { client := observer.onClientMessage w.client m,
          trace := w.trace ++ readEvents now i (some m) ++ handleEvents now i m } := by
  rw [Client.Read.loop]
  simp only [h, if_false]
  unfold readEvents handleEvents World.emit
  split <;> split <;> simp

theorem readEvents_open (now : Nat → Int) (i : Nat) (r : Option Message) :
    ∀ e ∈ readEvents now i r, e ∉ closeEvents 1 := by
  intro e he
  unfold readEvents at he
  split at he <;> simp at he
  · rcases he with h | h <;> subst h <;> simp [closeEvents, closingEvents]
  · subst he
    simp [closeEvents, closingEvents]

theorem handleEvents_open (now : Nat → Int) (i : Nat) (m : Message) :
    ∀ e ∈ handleEvents now i m, e ∉ closeEvents 1 := by
  intro e he
  unfold handleEvents at he
  split at he <;> simp at he
  · rcases he with h | h <;> subst h <;> simp [closeEvents, closingEvents]
  · subst he
    simp [closeEvents, closingEvents]

/-- The trace of the read loop: effects that are not close effects, followed by the effects
of the close sequence as far as it has come, on the client as it was when the sequence
started; and the close sequence is started when the stream holds an end-of-stream result or
the throttle flag is set on entry. -/
theorem loop_trace (observer : ClientObserver) (now : Nat → Int) (i : Nat)
    (inbound : List (Option Message)) (w : World) :
    ∃ body, (∀ e ∈ body, e ∉ closeEvents 1) ∧
      (Client.Read.loop observer now i inbound w).1.trace =
        w.trace ++ body ++
          statusEvents (Client.Read.loop observer now i inbound w).2.2
            (clientAtClose observer inbound w.client).uid ∧
      ((none ∈ inbound ∨ w.client.tc > 0) →
        (Client.Read.loop observer now i inbound w).2.2 =
          closeStatus (clientAtClose observer inbound w.client)) := by
  induction inbound generalizing i w with
  | nil =>
    by_cases h : w.client.tc > 0
    · refine ⟨[Event.log LogLine.quit_read], ?_, ?_, ?_⟩
      · simp [closeEvents, closingEvents]
      · rw [loop_throttle observer now i [] w h, afterClose_eq]
        simp [World.emit, clientAtClose]
      · intro _
        rw [loop_throttle observer now i [] w h, afterClose_eq]
        simp [World.emit, clientAtClose]
    · refine ⟨[], ?_, ?_, ?_⟩
      · simp
      · rw [loop_blocked observer now i w h]
        simp [statusEvents]
      · intro hc
        simp [h] at hc
  | cons x rest ih =>
    by_cases h : w.client.tc > 0
    · refine ⟨[Event.log LogLine.quit_read], ?_, ?_, ?_⟩
      · simp [closeEvents, closingEvents]
      · rw [loop_throttle observer now i (x :: rest) w h, afterClose_eq]
        cases x <;> simp [World.emit, clientAtClose, h]
      · intro _
        rw [loop_throttle observer now i (x :: rest) w h, afterClose_eq]
        cases x <;> simp [World.emit, clientAtClose, h]
    · cases x with
      | none =>
        refine ⟨readEvents now i none, readEvents_open now i none, ?_, ?_⟩
        · rw [loop_eof observer now i rest w h, afterClose_eq]
          simp [clientAtClose]
        · intro _
          rw [loop_eof observer now i rest w h, afterClose_eq]
          simp [clientAtClose]
      | some m =>
        rw [loop_message observer now i m rest w h]
        obtain ⟨body, hb, ht, hx⟩ := ih (i + 1)
          { client := observer.onClientMessage w.client m,
            trace := w.trace ++ readEvents now i (some m) ++ handleEvents now i m }
        have hc : clientAtClose observer (some m :: rest) w.client =
            clientAtClose observer rest (observer.onClientMessage w.client m) := by
          simp [clientAtClose, h]
        rw [hc]
        refine ⟨readEvents now i (some m) ++ handleEvents now i m ++ body, ?_, ?_, ?_⟩
        · intro e he
          simp only [List.mem_append] at he
          rcases he with (he | he) | he
          · exact readEvents_open now i (some m) e he
          · exact handleEvents_open now i m e he
          · exact hb e he
        · rw [ht]
          simp [List.append_assoc]
        · intro hcc
          by_cases hr : none ∈ rest
          · exact hx (Or.inl hr)
          · exfalso
            rcases hcc with hcc | hcc
            · simp at hcc
              exact hr hcc
            · exact h hcc

theorem closingEvents_count (uid : Int) :
    (closingEvents uid).count Event.onClientClose = 0 ∧
    (closingEvents uid).count (Event.addConnections (-1)) = 1 ∧
    (closingEvents uid).count (Event.storeClosed 1) = 1 ∧
    (closingEvents uid).count (Event.wtSend none) = 0 ∧
    (closingEvents uid).count (Event.addClients (-1)) = (if uid > 0 then 1 else 0) := by
  unfold closingEvents
  by_cases h : uid > 0 <;> simp [h, List.count_cons]

theorem closeEvents_count (uid : Int) :
    (closeEvents uid).count Event.onClientClose = 1 ∧
    (closeEvents uid).count (Event.addConnections (-1)) = 1 ∧
    (closeEvents uid).count (Event.storeClosed 1) = 1 ∧
    (closeEvents uid).count (Event.wtSend none) = 1 ∧
    (closeEvents uid).count (Event.addClients (-1)) = (if uid > 0 then 1 else 0) := by
  unfold closeEvents closingEvents
  by_cases h : uid > 0 <;> simp [h, List.count_cons]

theorem loopEvents_dispatch (now : Nat → Int) (i : Nat) (ms : List Message) :
    (loopEvents now i ms).filter isDispatch =
      ms.flatMap (fun m => [Event.read (some m), Event.onClientMessage m]) := by
  induction ms generalizing i with
  | nil => simp [loopEvents]
  | cons m ms ih =>
    simp only [loopEvents, List.filter_append, ih, List.flatMap_cons]
    unfold readEvents handleEvents
    split <;> split <;> simp [isDispatch]

/-- The read loop on a stream of messages ended by an end-of-stream result, when the throttle
flag is never set. -/
theorem loop_stream (observer : ClientObserver) (now : Nat → Int)
    (hobs : ∀ c m, c.tc ≤ 0 → (observer.onClientMessage c m).tc ≤ 0)
    (ms : List Message) (rest : List (Option Message)) (i : Nat) (w : World)
    (h0 : w.client.tc ≤ 0) :
    Client.Read.loop observer now i (ms.map some ++ none :: rest) w =
      Client.Read.afterClose
        (Client.onclose observer
          { client := ms.foldl observer.onClientMessage w.client,
            trace := w.trace ++ loopEvents now i ms ++ readEvents now (i + ms.length) none })
        rest := by
  induction ms generalizing i w with
  | nil =>
    have h : ¬ w.client.tc > 0 := not_lt.mpr h0
    simp [loop_eof observer now i rest w h, loopEvents]
  | cons m ms ih =>
    have h : ¬ w.client.tc > 0 := not_lt.mpr h0
    simp only [List.map_cons, List.cons_append]
    rw [loop_message observer now i m _ w h, ih (i + 1) _ (hobs _ _ h0)]
    simp [loopEvents, List.append_assoc, Nat.add_assoc, Nat.add_comm 1]

/-! ## Lemmas on the interleaving of producers with a flush -/

theorem run_append (p : Protocol) (a b : List FlushStep) (s : FlushState) :
    FlushState.run p (a ++ b) s = FlushState.run p b (FlushState.run p a s) := by
  simp [FlushState.run, List.foldl_append]

theorem run_cons (p : Protocol) (st : FlushStep) (b : List FlushStep) (s : FlushState) :
    FlushState.run p (st :: b) s = FlushState.run p b (FlushState.step p s st) := by
  simp [FlushState.run]

theorem run_deliver_idle (p : Protocol) (n : Nat) (c : Client) :
    FlushState.run p (List.replicate n FlushStep.deliver) ⟨c, none⟩ = ⟨c, none⟩ := by
  induction n with
  | zero => simp [FlushState.run]
  | succ n ih => rw [List.replicate_succ, run_cons]; simpa [FlushState.step] using ih

theorem run_deliver (p : Protocol) (l : List Message) (c : Client) (n : Nat)
    (hn : l.length ≤ n) :
    FlushState.run p (List.replicate (n + 1) FlushStep.deliver) ⟨c, some l⟩ =
      ⟨c.delivered p l, none⟩ := by
  induction l generalizing c n with
  | nil =>
    rw [List.replicate_succ, run_cons]
    simp only [FlushState.step]
    rw [run_deliver_idle, delivered_nil]
  | cons m rest ih =>
    cases n with
    | zero => simp at hn
    | succ k =>
      rw [List.replicate_succ, run_cons]
      simp only [FlushState.step]
      rw [ih _ k (by simpa using hn), body_eq_delivered]
      have h : m :: rest = [m] ++ rest := rfl
      rw [h, delivered_append]

theorem flush_uninterrupted (p : Protocol) (c : Client) :
    FlushState.run p (flushSteps c.messages.length) ⟨c, none⟩ =
      ⟨Client.SendMessages p c, none⟩ := by
  unfold flushSteps
  rw [run_cons, SendMessages_eq]
  by_cases h : c.messages.length = 0
  · have h0 : c.messages = [] := List.length_eq_zero.mp h
    simp only [FlushState.step, h, if_true]
    rw [run_deliver_idle, h0, delivered_nil]
    cases c
    simp_all
  · simp only [FlushState.step, h, if_false]
    exact run_deliver p c.messages _ _ (le_refl _)

theorem flush_finish (p : Protocol) (s : FlushState) :
    FlushState.run p
        (List.replicate ((s.taken.getD []).length + 1) FlushStep.deliver ++
          flushSteps s.client.messages.length) s =
      ⟨({ s.client with messages := [] } : Client).delivered p
          (s.taken.getD [] ++ s.client.messages), none⟩ := by
  obtain ⟨c, t⟩ := s
  rw [run_append]
  have h1 : FlushState.run p (List.replicate ((t.getD []).length + 1) FlushStep.deliver) ⟨c, t⟩ =
      ⟨c.delivered p (t.getD []), none⟩ := by
    cases t with
    | none => simpa [delivered_nil] using run_deliver_idle p 1 c
    | some l => simpa using run_deliver p l c l.length (le_refl _)
  simp only [h1]
  have h2 := flush_uninterrupted p (c.delivered p (t.getD []))
  have h3 : (c.delivered p (t.getD [])).messages = c.messages := rfl
  rw [h3] at h2
  rw [h2, SendMessages_eq, h3, delivered_append]
  rfl

theorem run_appends (p : Protocol) (l : List Message) (s : FlushState) :
    (FlushState.run p (l.map FlushStep.append) s).taken = s.taken ∧
    (FlushState.run p (l.map FlushStep.append) s).client.messages = s.client.messages ++ l := by
  induction l generalizing s with
  | nil => simp [FlushState.run]
  | cons m l ih =>
    rw [List.map_cons, run_cons]
    obtain ⟨h1, h2⟩ := ih (FlushState.step p s (FlushStep.append m))
    rw [h1, h2]
    simp [FlushState.step, Client.appendPending]

theorem swap_takes (p : Protocol) (s : FlushState) (h : s.taken = none) :
    (FlushState.step p s FlushStep.swap).taken.getD [] = s.client.messages ∧
    (FlushState.step p s FlushStep.swap).client.messages = [] := by
  obtain ⟨c, t⟩ := s
  simp only at h
  subst h
  by_cases hm : c.messages.length = 0
  · have h0 : c.messages = [] := List.length_eq_zero.mp hm
    simp [FlushState.step, h0]
  · simp [FlushState.step, hm]

/-- The invariant of the interleaving: what has been delivered, what the running flush still
holds and what the live queue holds are, in this order, the messages queued so far. -/
theorem step_invariant (p : Protocol) (c : Client) (app : List Message) (s : FlushState)
    (st : FlushStep)
    (h : ∃ done, s.client.sent = c.sent ++ done.flatMap (wire p c.version) ∧
      s.client.server_summary.out_message_count =
        c.server_summary.out_message_count.add ((done.countP (counted p) : Nat) : Int) ∧
      s.client.version = c.version ∧
      done ++ s.taken.getD [] ++ s.client.messages = c.messages ++ app) :
    ∃ done, (FlushState.step p s st).client.sent = c.sent ++ done.flatMap (wire p c.version) ∧
      (FlushState.step p s st).client.server_summary.out_message_count =
        c.server_summary.out_message_count.add ((done.countP (counted p) : Nat) : Int) ∧
      (FlushState.step p s st).client.version = c.version ∧
      done ++ (FlushState.step p s st).taken.getD [] ++ (FlushState.step p s st).client.messages =
        c.messages ++ (app ++ appendsOf [st]) := by
  obtain ⟨done, hs, ho, hv, hq⟩ := h
  obtain ⟨sc, t⟩ := s
  cases st with
  | append m =>
    refine ⟨done, hs, ho, hv, ?_⟩
    simp only [FlushState.step, Client.appendPending, appendsOf, List.filterMap_cons,
      List.filterMap_nil]
    rw [← List.append_assoc, ← List.append_assoc, ← hq]
  | swap =>
    cases t with
    | some l =>
      refine ⟨done, hs, ho, hv, ?_⟩
      simpa [FlushState.step, appendsOf] using hq
    | none =>
      by_cases hm : sc.messages.length = 0
      · refine ⟨done, ?_, ?_, ?_, ?_⟩ <;> simp only [FlushState.step, hm, if_true]
        · exact hs
        · exact ho
        · exact hv
        · simpa [appendsOf] using hq
      · refine ⟨done, ?_, ?_, ?_, ?_⟩ <;> simp only [FlushState.step, hm, if_false]
        · exact hs
        · exact ho
        · exact hv
        · simpa [appendsOf] using hq
  | deliver =>
    cases t with
    | none =>
      refine ⟨done, hs, ho, hv, ?_⟩
      simpa [FlushState.step, appendsOf] using hq
    | some l =>
      cases l with
      | nil =>
        refine ⟨done, hs, ho, hv, ?_⟩
        simpa [FlushState.step, appendsOf] using hq
      | cons m rest =>
        refine ⟨done ++ [m], ?_, ?_, ?_, ?_⟩ <;>
          simp only [FlushState.step, body_eq_delivered, Client.delivered]
        · simp only at hs hv
          rw [hs, hv]
          simp [List.append_assoc]
        · simp only at ho
          rw [ho]
          simp [List.countP_append, Int64.add_add]
        · exact hv
        · simp only [Option.getD_some] at hq
          simpa [appendsOf, List.append_assoc] using hq

theorem run_invariant (p : Protocol) (c : Client) (steps : List FlushStep) :
    ∀ (app : List Message) (s : FlushState),
      (∃ done, s.client.sent = c.sent ++ done.flatMap (wire p c.version) ∧
        s.client.server_summary.out_message_count =
          c.server_summary.out_message_count.add ((done.countP (counted p) : Nat) : Int) ∧
        s.client.version = c.version ∧
        done ++ s.taken.getD [] ++ s.client.messages = c.messages ++ app) →
      ∃ done, (FlushState.run p steps s).client.sent = c.sent ++ done.flatMap (wire p c.version) ∧
        (FlushState.run p steps s).client.server_summary.out_message_count =
          c.server_summary.out_message_count.add ((done.countP (counted p) : Nat) : Int) ∧
        (FlushState.run p steps s).client.version = c.version ∧
        done ++ (FlushState.run p steps s).taken.getD [] ++
            (FlushState.run p steps s).client.messages =
          c.messages ++ (app ++ appendsOf steps) := by
  induction steps with
  | nil =>
    intro app s h
    simpa [FlushState.run, appendsOf] using h
  | cons st rest ih =>
    intro app s h
    rw [run_cons]
    have h1 := ih (app ++ appendsOf [st]) (FlushState.step p s st)
      (step_invariant p c app s st h)
    have h2 : app ++ appendsOf [st] ++ appendsOf rest = app ++ appendsOf (st :: rest) := by
      simp [appendsOf, List.append_assoc]
      cases st <;> simp
    rw [h2] at h1
    exact h1

theorem handledFrom_direct (ms : List Message) (q : List (Option Message))
    (pwt : List (List Message)) (lwt : List Int) (pending : List Message) :
    handledFrom (List.replicate ms.length Select.wt) (ms.map some ++ q) pwt lwt pending = ms := by
  induction ms with
  | nil => simp [handledFrom]
  | cons m ms ih => simp [List.replicate_succ, handledFrom, ih]

theorem Write_client (p : Protocol) (sched : List Select) (w : World) :
    (Client.Write p sched w).1.client.sent = (Client.Write.main p sched w).1.client.sent ∧
    (Client.Write p sched w).1.client.server_summary =
      (Client.Write.main p sched w).1.client.server_summary := by
  unfold Client.Write
  rcases hm : Client.Write.main p sched w with ⟨w1, rest, running⟩
  cases running with
  | true => simp
  | false =>
    simp only
    rw [drain_spec]
    by_cases ht : Select.timer ∈ rest <;> simp [ht, World.emit]

/-! ## The claims -/

/-- C1: delivering a message `m` hands the transport exactly `[meta(m), m]` when `m` carries
`Meta`, the metadata message having command `MSG_METADATA`, the client's negotiated version
and the metadata as body, and exactly `[m]` otherwise.  The transport log after the step is
given for each path: `m` received from the direct channel (alone, and followed by any
schedule), `m` as an element of a batch, `m` as an element of the pending queue flushed by
`SendMessages`; in each the sends of `m` follow those of the messages before it and precede
those of the messages after it. -/
theorem delivery_rule_metadata_first (p : Protocol) (c : Client) (m : Message)
    (tr : List Event) :
    (wire p c.version m =
      match m.Meta with
      | some md =>
        [{ Cmd := p.MSG_METADATA, Version := c.version, Body := Payload.metadata md,
           Meta := none }, m]
      | none => [m]) ∧
    (∀ q,
      (Client.Write.main p [Select.wt] ⟨{ c with wt := some m :: q }, tr⟩).1.client.sent =
        c.sent ++ wire p c.version m) ∧
    (∀ q,
      (Client.Write p [Select.wt] ⟨{ c with wt := some m :: q }, tr⟩).1.client.sent =
        c.sent ++ wire p c.version m) ∧
    (∀ q sched,
      (Client.Write.main p (Select.wt :: sched)
          ⟨{ c with wt := some m :: q }, tr⟩).1.client.sent =
        c.sent ++ wire p c.version m ++
          (handledFrom sched q c.pwt c.lwt c.messages).flatMap (wire p c.version)) ∧
    (∀ pre post q,
      (Client.Write.main p [Select.pwt]
          ⟨{ c with pwt := (pre ++ m :: post) :: q }, tr⟩).1.client.sent =
        c.sent ++ pre.flatMap (wire p c.version) ++ wire p c.version m ++
          post.flatMap (wire p c.version)) ∧
    (∀ pre post,
      (Client.SendMessages p { c with messages := pre ++ m :: post }).sent =
        c.sent ++ pre.flatMap (wire p c.version) ++ wire p c.version m ++
          post.flatMap (wire p c.version)) := by
  refine ⟨?_, ?_, ?_, ?_, ?_, ?_⟩
  · unfold wire metaMessage
    cases m.Meta <;> rfl
  · intro q
    have h := (main_spec p [Select.wt] ⟨{ c with wt := some m :: q }, tr⟩).2.1
    simpa [Client.Write.handled, handledFrom] using h
  · intro q
    have h := (main_spec p [Select.wt] ⟨{ c with wt := some m :: q }, tr⟩).2.1
    rw [(Write_client p [Select.wt] ⟨{ c with wt := some m :: q }, tr⟩).1]
    simpa [Client.Write.handled, handledFrom] using h
  · intro q sched
    have h := (main_spec p (Select.wt :: sched) ⟨{ c with wt := some m :: q }, tr⟩).2.1
    simpa [Client.Write.handled, handledFrom, List.append_assoc] using h
  · intro pre post q
    have h := (main_spec p [Select.pwt] ⟨{ c with pwt := (pre ++ m :: post) :: q }, tr⟩).2.1
    simpa [Client.Write.handled, handledFrom, List.append_assoc] using h
  · intro pre post
    rw [SendMessages_eq]
    simp [Client.delivered, List.append_assoc]

/-- C2 (amended): a run of the write loop raises the outbound counter by the number `N` of
counted messages (real-time, IM, group IM, room IM) among the messages it delivers, in
`int64` arithmetic: the new value is the old value plus `N` wrapped into the `int64` range,
which is the old value plus `N` whenever that does not exceed `MaxInt64`; no other counter
changes; the transport receives the wire form of the delivered messages; the synthesized
metadata message is never counted, so a counted message with `Meta` received from the direct
channel causes two transport sends and one increment. -/
theorem outbound_counter_counts (p : Protocol) (sched : List Select) (w : World) :
    (Client.Write p sched w).1.client.server_summary =
      { w.client.server_summary with
        out_message_count := w.client.server_summary.out_message_count.add
          (((Client.Write.handled sched w.client).countP (counted p) : Nat) : Int) } ∧
    (Client.Write p sched w).1.client.server_summary.out_message_count.val =
      wrapInt64 (w.client.server_summary.out_message_count.val +
        (((Client.Write.handled sched w.client).countP (counted p) : Nat) : Int)) ∧
    (w.client.server_summary.out_message_count.val +
        (((Client.Write.handled sched w.client).countP (counted p) : Nat) : Int) <
          9223372036854775808 →
      (Client.Write p sched w).1.client.server_summary.out_message_count.val =
        w.client.server_summary.out_message_count.val +
          (((Client.Write.handled sched w.client).countP (counted p) : Nat) : Int)) ∧
    (Client.Write p sched w).1.client.sent =
      w.client.sent ++ (Client.Write.handled sched w.client).flatMap (wire p w.client.version) ∧
    (∀ (c : Client) (tr : List Event) (m : Message) (md : Metadata),
      (m.Cmd = p.MSG_RT ∨ m.Cmd = p.MSG_IM ∨ m.Cmd = p.MSG_GROUP_IM ∨ m.Cmd = p.MSG_ROOM_IM) →
      m.Meta = some md →
      (Client.Write p [Select.wt] ⟨{ c with wt := [some m] }, tr⟩).1.client.sent =
          c.sent ++ [metaMessage p c.version md, m] ∧
        (Client.Write p [Select.wt]
            ⟨{ c with wt := [some m] }, tr⟩).1.client.server_summary.out_message_count =
          c.server_summary.out_message_count.add 1) := by
  obtain ⟨hs, hc⟩ := Write_client p sched w
  obtain ⟨_, h2, h3⟩ := main_spec p sched w
  have hsum := hc.trans h3
  refine ⟨hsum, ?_, ?_, hs.trans h2, ?_⟩
  · rw [hsum]
    rfl
  · intro hlt
    rw [hsum]
    have hr := w.client.server_summary.out_message_count.inRange
    show wrapInt64 _ = _
    apply wrapInt64_of_range
    constructor
    · have : (0 : Int) ≤ (((Client.Write.handled sched w.client).countP (counted p) : Nat) : Int) :=
        Int.ofNat_nonneg _
      omega
    · exact hlt
  · intro c tr m md hk hm
    obtain ⟨hs1, hc1⟩ := Write_client p [Select.wt] ⟨{ c with wt := [some m] }, tr⟩
    obtain ⟨_, h21, h31⟩ := main_spec p [Select.wt] ⟨{ c with wt := [some m] }, tr⟩
    rw [hs1, hc1, h21, h31]
    simp [Client.Write.handled, handledFrom, wire, hm, counted, hk]

/-- C3: `SendMessages` delivers every message of the pending queue once, in append order,
each by the delivery rule, changes nothing else and leaves the pending queue empty; on an
empty pending queue it changes nothing; a second flush right after a flush changes nothing. -/
theorem flush_delivers_queue_once (p : Protocol) (c : Client) :
    (Client.SendMessages p c).messages = [] ∧
    (Client.SendMessages p c).sent = c.sent ++ c.messages.flatMap (wire p c.version) ∧
    (Client.SendMessages p c).server_summary =
      { c.server_summary with
        out_message_count := c.server_summary.out_message_count.add
          ((c.messages.countP (counted p) : Nat) : Int) } ∧
    Client.SendMessages p c = ({ c with messages := [] } : Client).delivered p c.messages ∧
    Client.SendMessages p { c with messages := [] } = { c with messages := [] } ∧
    Client.SendMessages p (Client.SendMessages p c) = Client.SendMessages p c := by
  have h := SendMessages_eq p c
  refine ⟨?_, ?_, ?_, h, ?_, ?_⟩
  · rw [h]; rfl
  · rw [h]; rfl
  · rw [h]; rfl
  · rw [SendMessages_eq]
    exact delivered_nil p _
  · have hm : (Client.SendMessages p c).messages = [] := by rw [h]; rfl
    rw [SendMessages_eq p (Client.SendMessages p c), hm, delivered_nil]
    rw [h]
    rfl

/-- C4 (amended): one execution of `onclose` lowers `nconnections` by one, lowers `nclients`
by one exactly when `uid > 0` (in `int64` arithmetic: by exactly one unless the counter is at
`MinInt64`, where it wraps), leaves `out_message_count` alone and stores 1 in `closed`.  When
the direct channel has a free slot it then sends one `nil` on the direct channel and calls
`onClientClose` once, on the client in that state, and returns; these are all its effects,
in this order.  When the direct channel is full it is blocked in the sentinel send: nothing
is sent and `onClientClose` is not called. -/
theorem onclose_effects (observer : ClientObserver) (w : World) :
    (w.client.wt.length < wtCapacity →
      (Client.onclose observer w).2 = true ∧
      (Client.onclose observer w).1.client =
        observer.onClientClose
          { w.client with
            server_summary :=
              { nconnections := w.client.server_summary.nconnections.add (-1),
                nclients :=
                  if w.client.uid > 0 then w.client.server_summary.nclients.add (-1)
                  else w.client.server_summary.nclients,
                out_message_count := w.client.server_summary.out_message_count },
            closed := 1,
            wt := w.client.wt ++ [none] } ∧
      (Client.onclose observer w).1.trace =
        w.trace ++ [Event.addConnections (-1)] ++
          (if w.client.uid > 0 then [Event.addClients (-1)] else []) ++
          [Event.storeClosed 1, Event.wtSend none, Event.onClientClose] ∧
      (Client.onclose observer w).1.trace.count Event.onClientClose =
        w.trace.count Event.onClientClose + 1 ∧
      (Client.onclose observer w).1.trace.count (Event.wtSend none) =
        w.trace.count (Event.wtSend none) + 1) ∧
    (¬ w.client.wt.length < wtCapacity →
      (Client.onclose observer w).2 = false ∧
      (Client.onclose observer w).1.client =
        { w.client with
          server_summary :=
            { nconnections := w.client.server_summary.nconnections.add (-1),
              nclients :=
                if w.client.uid > 0 then w.client.server_summary.nclients.add (-1)
                else w.client.server_summary.nclients,
              out_message_count := w.client.server_summary.out_message_count },
          closed := 1 } ∧
      (Client.onclose observer w).1.trace =
        w.trace ++ [Event.addConnections (-1)] ++
          (if w.client.uid > 0 then [Event.addClients (-1)] else []) ++
          [Event.storeClosed 1] ∧
      (Client.onclose observer w).1.trace.count Event.onClientClose =
        w.trace.count Event.onClientClose ∧
      (Client.onclose observer w).1.trace.count (Event.wtSend none) =
        w.trace.count (Event.wtSend none)) ∧
    (-9223372036854775808 < w.client.server_summary.nconnections.val →
      (w.client.server_summary.nconnections.add (-1)).val =
        w.client.server_summary.nconnections.val - 1) ∧
    (-9223372036854775808 < w.client.server_summary.nclients.val →
      (w.client.server_summary.nclients.add (-1)).val =
        w.client.server_summary.nclients.val - 1) := by
  obtain ⟨h1, _, _, h4, _⟩ := closeEvents_count w.client.uid
  obtain ⟨k1, _, _, k4, _⟩ := closingEvents_count w.client.uid
  refine ⟨?_, ?_, ?_, ?_⟩
  · intro hs
    rw [onclose_eq, if_pos hs]
    refine ⟨rfl, rfl, ?_, ?_, ?_⟩
    · simp [closeEvents, closingEvents, List.append_assoc]
    · simp only [List.count_append, h1]
    · simp only [List.count_append, h4]
  · intro hs
    rw [onclose_eq, if_neg hs]
    refine ⟨rfl, rfl, ?_, ?_, ?_⟩
    · simp [closingEvents, List.append_assoc]
    · simp only [List.count_append, k1, Nat.add_zero]
    · simp only [List.count_append, k4, Nat.add_zero]
  · intro hlo
    have hr := w.client.server_summary.nconnections.inRange
    show wrapInt64 _ = _
    rw [wrapInt64_of_range] <;> omega
  · intro hlo
    have hr := w.client.server_summary.nclients.inRange
    show wrapInt64 _ = _
    rw [wrapInt64_of_range] <;> omega

/-- C5 (amended): in a run of `Read`, whatever the read results and whatever the handler does
to the throttle flag, no effect of the close sequence occurs twice.  The decrement of
`nconnections` and the store to `closed` occur once as soon as the close sequence has been
started (not at all while the loop is still reading), the decrement of `nclients` likewise
when `uid > 0` at that moment and never otherwise, and the sentinel and the `onClientClose`
call occur once exactly when the loop has exited.  The close sequence is started when the
stream holds an end-of-stream result or the throttle flag is set at the start, and then the
loop exits if the direct channel has a free slot at that moment and is blocked in the
sentinel send otherwise. -/
theorem close_at_most_once (observer : ClientObserver) (now : Nat → Int)
    (inbound : List (Option Message)) (w : World) :
    (Client.Read observer now inbound w).1.trace.count Event.onClientClose =
      w.trace.count Event.onClientClose +
        (if (Client.Read observer now inbound w).2.2 = ReadStatus.exited then 1 else 0) ∧
    (Client.Read observer now inbound w).1.trace.count (Event.wtSend none) =
      w.trace.count (Event.wtSend none) +
        (if (Client.Read observer now inbound w).2.2 = ReadStatus.exited then 1 else 0) ∧
    (Client.Read observer now inbound w).1.trace.count (Event.addConnections (-1)) =
      w.trace.count (Event.addConnections (-1)) +
        (if (Client.Read observer now inbound w).2.2 = ReadStatus.reading then 0 else 1) ∧
    (Client.Read observer now inbound w).1.trace.count (Event.storeClosed 1) =
      w.trace.count (Event.storeClosed 1) +
        (if (Client.Read observer now inbound w).2.2 = ReadStatus.reading then 0 else 1) ∧
    (Client.Read observer now inbound w).1.trace.count (Event.addClients (-1)) =
      w.trace.count (Event.addClients (-1)) +
        (if (Client.Read observer now inbound w).2.2 = ReadStatus.reading then 0
         else if (clientAtClose observer inbound (w.addConnections 1).client).uid > 0 then 1
         else 0) ∧
    ((none ∈ inbound ∨ w.client.tc > 0) →
      (Client.Read observer now inbound w).2.2 =
        closeStatus (clientAtClose observer inbound (w.addConnections 1).client)) := by
  unfold Client.Read
  obtain ⟨body, hb, ht, hx⟩ := loop_trace observer now 0 inbound (w.addConnections 1)
  obtain ⟨c1, c2, c3, c4, c5⟩ :=
    closeEvents_count (clientAtClose observer inbound (w.addConnections 1).client).uid
  obtain ⟨k1, k2, k3, k4, k5⟩ :=
    closingEvents_count (clientAtClose observer inbound (w.addConnections 1).client).uid
  have hz : ∀ e, e ∈ closeEvents 1 → body.count e = 0 := by
    intro e he
    apply List.count_eq_zero_of_not_mem
    intro hm
    exact hb e hm he
  have z1 := hz Event.onClientClose (by simp [closeEvents, closingEvents])
  have z2 := hz (Event.addConnections (-1)) (by simp [closeEvents, closingEvents])
  have z3 := hz (Event.storeClosed 1) (by simp [closeEvents, closingEvents])
  have z4 := hz (Event.wtSend none) (by simp [closeEvents, closingEvents])
  have z5 := hz (Event.addClients (-1)) (by simp [closeEvents, closingEvents])
  have htr : (w.addConnections 1).trace = w.trace ++ [Event.addConnections 1] := rfl
  rw [htr] at ht
  simp only
  rw [ht]
  refine ⟨?_, ?_, ?_, ?_, ?_, hx⟩
  · cases (Client.Read.loop observer now 0 inbound (w.addConnections 1)).2.2 <;>
      simp [List.count_append, z1, c1, k1, statusEvents, List.count_cons]
  · cases (Client.Read.loop observer now 0 inbound (w.addConnections 1)).2.2 <;>
      simp [List.count_append, z4, c4, k4, statusEvents, List.count_cons]
  · cases (Client.Read.loop observer now 0 inbound (w.addConnections 1)).2.2 <;>
      simp [List.count_append, z2, c2, k2, statusEvents, List.count_cons]
  · cases (Client.Read.loop observer now 0 inbound (w.addConnections 1)).2.2 <;>
      simp [List.count_append, z3, c3, k3, statusEvents, List.count_cons]
  · cases (Client.Read.loop observer now 0 inbound (w.addConnections 1)).2.2 <;>
      simp [List.count_append, z5, c5, k5, statusEvents, List.count_cons]

/-- C6 (amended): when the throttle flag is greater than zero at the check of an iteration of
the read loop, the loop reads nothing more and calls `onClientMessage` no more: it runs the
close sequence on the current world, leaving the pending read results untouched, and exits
when the close sequence returns: at once, after one `onClientClose` call, when the direct
channel has a free slot for the sentinel; on a full direct channel it stays blocked in the
sentinel send, `onClientClose` not called.  So `Read` started with the flag set performs no
read and no `onClientMessage` call. -/
theorem throttle_stops_reading (observer : ClientObserver) (now : Nat → Int) (i : Nat)
    (inbound : List (Option Message)) (w : World) (h : w.client.tc > 0) :
    Client.Read.loop observer now i inbound w =
      ((Client.onclose observer (w.emit (Event.log LogLine.quit_read))).1, inbound,
        closeStatus w.client) ∧
    ((Client.Read.loop observer now i inbound w).1.trace.drop w.trace.length).filter isDispatch =
      (if w.client.wt.length < wtCapacity then [Event.onClientClose] else []) ∧
    Client.Read observer now inbound w =
      ((Client.onclose observer
          ((w.addConnections 1).emit (Event.log LogLine.quit_read))).1,
        inbound, closeStatus w.client) ∧
    ((Client.Read observer now inbound w).1.trace.drop w.trace.length).filter isDispatch =
      (if w.client.wt.length < wtCapacity then [Event.onClientClose] else []) ∧
    closeStatus w.client =
      (if w.client.wt.length < wtCapacity then ReadStatus.exited else ReadStatus.closing) := by
  have h1 : (w.addConnections 1).client.tc > 0 := h
  have e1 : Client.Read.loop observer now i inbound w =
      ((Client.onclose observer (w.emit (Event.log LogLine.quit_read))).1, inbound,
        closeStatus w.client) := by
    rw [loop_throttle observer now i inbound w h, afterClose_eq, onclose_eq]
    by_cases hs : w.client.wt.length < wtCapacity <;> simp [hs, World.emit, closeStatus, statusEvents]
  have e2 : Client.Read observer now inbound w =
      ((Client.onclose observer
          ((w.addConnections 1).emit (Event.log LogLine.quit_read))).1,
        inbound, closeStatus w.client) := by
    unfold Client.Read
    simp only
    rw [loop_throttle observer now 0 inbound (w.addConnections 1) h1, afterClose_eq, onclose_eq]
    by_cases hs : w.client.wt.length < wtCapacity <;>
      simp [hs, World.emit, World.addConnections, closeStatus, statusEvents]
  refine ⟨e1, ?_, e2, ?_, rfl⟩
  · rw [e1, onclose_eq]
    by_cases hs : w.client.wt.length < wtCapacity
    · simp only [World.emit, hs, if_true, List.append_assoc, List.drop_left]
      unfold closeEvents closingEvents
      split <;> simp [isDispatch]
    · simp only [World.emit, hs, if_false, List.append_assoc, List.drop_left]
      unfold closingEvents
      split <;> simp [isDispatch]
  · rw [e2, onclose_eq]
    by_cases hs : w.client.wt.length < wtCapacity
    · simp only [World.emit, World.addConnections, hs, if_true, List.append_assoc,
        List.drop_left]
      unfold closeEvents closingEvents
      split <;> simp [isDispatch]
    · simp only [World.emit, World.addConnections, hs, if_false, List.append_assoc,
        List.drop_left]
      unfold closingEvents
      split <;> simp [isDispatch]

/-- C7 (amended): with the throttle flag never set (not set at the start, and never set by
the handler), on the read results `m1, ..., mk`, then end-of-stream, then anything, `Read`
leaves what follows the first end-of-stream unread, hands exactly `m1, ..., mk` to
`onClientMessage`, each right after its read and before the next read, then runs the close
sequence once and exits when that returns: at once, after one `onClientClose` call, when the
direct channel has a free slot for the sentinel; on a full direct channel it stays blocked in
the sentinel send, `onClientClose` not called.  The clock values have no part in this. -/
theorem read_dispatches_stream (observer : ClientObserver) (now : Nat → Int)
    (ms : List Message) (rest : List (Option Message)) (w : World)
    (h0 : w.client.tc ≤ 0)
    (hobs : ∀ c m, c.tc ≤ 0 → (observer.onClientMessage c m).tc ≤ 0) :
    (Client.Read observer now (ms.map some ++ none :: rest) w).2.1 = rest ∧
    (Client.Read observer now (ms.map some ++ none :: rest) w).2.2 =
      (if (ms.foldl observer.onClientMessage (w.addConnections 1).client).wt.length < wtCapacity
       then ReadStatus.exited else ReadStatus.closing) ∧
    (Client.Read observer now (ms.map some ++ none :: rest) w).1.client =
      (Client.onclose observer
        ⟨ms.foldl observer.onClientMessage (w.addConnections 1).client, []⟩).1.client ∧
    ((Client.Read observer now (ms.map some ++ none :: rest) w).1.trace.drop
        w.trace.length).filter isDispatch =
      ms.flatMap (fun m => [Event.read (some m), Event.onClientMessage m]) ++
        [Event.read none] ++
        (if (ms.foldl observer.onClientMessage (w.addConnections 1).client).wt.length
            < wtCapacity
         then [Event.onClientClose] else []) := by
  have h1 : (w.addConnections 1).client.tc ≤ 0 := h0
  have e : Client.Read observer now (ms.map some ++ none :: rest) w = _ :=
    loop_stream observer now hobs ms rest 0 (w.addConnections 1) h1
  rw [e, afterClose_eq]
  refine ⟨rfl, rfl, ?_, ?_⟩
  · rw [onclose_eq]
    by_cases hs : (ms.foldl observer.onClientMessage (w.addConnections 1).client).wt.length
        < wtCapacity <;> simp [hs]
  · by_cases hs : (ms.foldl observer.onClientMessage (w.addConnections 1).client).wt.length
        < wtCapacity
    · simp only [World.addConnections, List.append_assoc, List.drop_left,
        List.filter_append, loopEvents_dispatch, closeStatus, statusEvents] at hs ⊢
      simp only [hs, if_true]
      unfold readEvents closeEvents closingEvents
      split <;> split <;> simp [isDispatch]
    · simp only [World.addConnections, List.append_assoc, List.drop_left,
        List.filter_append, loopEvents_dispatch, closeStatus, statusEvents] at hs ⊢
      simp only [hs, if_false]
      unfold readEvents closingEvents
      split <;> split <;> simp [isDispatch]

/-- C8: once the main phase of the write loop has received the `nil` sentinel it has called
the transport's `close` once and left the main phase; from there on `Write` sends nothing to
the transport and changes no counter, the batch channel, the wake channel and the pending
queue stay as they are (nothing in them is delivered), every value received from the direct
channel before the timer fires is dropped with a warning, and the loop exits exactly when
the grace timer is picked, leaving the schedule after it unused. -/
theorem shutdown_drain (p : Protocol) (sched : List Select) (w w1 : World)
    (rest : List Select) (h : Client.Write.main p sched w = (w1, rest, false)) :
    w1.client.conn_closed = w.client.conn_closed + 1 ∧
    w1.trace = w.trace ++ [Event.close, Event.log LogLine.socket_closed] ∧
    Client.Write p sched w =
      (⟨{ w1.client with wt := w1.client.wt.drop (dropCount rest w1.client.wt.length) },
        w1.trace ++
          List.replicate (dropCount rest w1.client.wt.length) (Event.log LogLine.msg_dropped) ++
          (if Select.timer ∈ rest then [Event.log LogLine.write_exit] else [])⟩,
        afterTimer rest,
        if Select.timer ∈ rest then Phase.exited else Phase.drain) ∧
    (Client.Write p sched w).1.client.sent = w1.client.sent ∧
    (Client.Write p sched w).1.client.server_summary = w1.client.server_summary ∧
    (Client.Write p sched w).1.client.pwt = w1.client.pwt ∧
    (Client.Write p sched w).1.client.lwt = w1.client.lwt ∧
    (Client.Write p sched w).1.client.messages = w1.client.messages ∧
    (Client.Write p sched w).1.client.conn_closed = w1.client.conn_closed ∧
    (∀ (c : Client) (q : List (Option Message)) (s : List Select) (tr : List Event),
      Client.Write.main p (Select.wt :: s) ⟨{ c with wt := none :: q }, tr⟩ =
        (⟨{ c with wt := q, conn_closed := c.conn_closed + 1 },
          tr ++ [Event.close, Event.log LogLine.socket_closed]⟩, s, false)) := by
  obtain ⟨ht, hc⟩ := main_exit p sched w
  rw [h] at ht hc
  have hW : Client.Write p sched w =
      (⟨{ w1.client with wt := w1.client.wt.drop (dropCount rest w1.client.wt.length) },
        w1.trace ++
          List.replicate (dropCount rest w1.client.wt.length) (Event.log LogLine.msg_dropped) ++
          (if Select.timer ∈ rest then [Event.log LogLine.write_exit] else [])⟩,
        afterTimer rest,
        if Select.timer ∈ rest then Phase.exited else Phase.drain) := by
    unfold Client.Write
    rw [h]
    simp only
    rw [drain_spec]
    by_cases htm : Select.timer ∈ rest <;> simp [htm, World.emit]
  refine ⟨by simpa using hc, by simpa using ht, hW, ?_, ?_, ?_, ?_, ?_, ?_, ?_⟩
  · rw [hW]
  · rw [hW]
  · rw [hW]
  · rw [hW]
  · rw [hW]
  · rw [hW]
  · intro c q s tr
    exact main_wt_nil p s _ q rfl

/-- C9: for every list of messages `ms`, receiving `ms` one by one from the direct channel,
receiving `ms` as one batch from the batch channel, and flushing a pending queue holding `ms`
give the same transport sends (the wire form of each message, in submission order) and the
same increase of the outbound counter. -/
theorem delivery_paths_agree (p : Protocol) (ms : List Message) (c : Client)
    (q : List (Option Message)) (qb : List (List Message)) (tr : List Event) :
    (Client.Write.main p (List.replicate ms.length Select.wt)
        ⟨{ c with wt := ms.map some ++ q }, tr⟩).1.client.sent =
      c.sent ++ ms.flatMap (wire p c.version) ∧
    (Client.Write.main p [Select.pwt] ⟨{ c with pwt := ms :: qb }, tr⟩).1.client.sent =
      c.sent ++ ms.flatMap (wire p c.version) ∧
    (Client.SendMessages p { c with messages := ms }).sent =
      c.sent ++ ms.flatMap (wire p c.version) ∧
    (Client.Write.main p (List.replicate ms.length Select.wt)
        ⟨{ c with wt := ms.map some ++ q }, tr⟩).1.client.server_summary.out_message_count =
      c.server_summary.out_message_count.add ((ms.countP (counted p) : Nat) : Int) ∧
    (Client.Write.main p [Select.pwt]
        ⟨{ c with pwt := ms :: qb }, tr⟩).1.client.server_summary.out_message_count =
      c.server_summary.out_message_count.add ((ms.countP (counted p) : Nat) : Int) ∧
    (Client.SendMessages p { c with messages := ms }).server_summary.out_message_count =
      c.server_summary.out_message_count.add ((ms.countP (counted p) : Nat) : Int) := by
  obtain ⟨_, d2, d3⟩ := main_spec p (List.replicate ms.length Select.wt)
    ⟨{ c with wt := ms.map some ++ q }, tr⟩
  obtain ⟨_, b2, b3⟩ := main_spec p [Select.pwt] ⟨{ c with pwt := ms :: qb }, tr⟩
  have f := SendMessages_eq p { c with messages := ms }
  simp only [Client.Write.handled, handledFrom_direct] at d2 d3
  simp only [Client.Write.handled, handledFrom, List.append_nil] at b2 b3
  refine ⟨d2, b2, ?_, ?_, ?_, ?_⟩
  · rw [f]; rfl
  · rw [d3]
  · rw [b3]
  · rw [f]; rfl

/-- C10: in every interleaving of producer appends with the atomic steps of the flushing
write goroutine (the swap under the lock, then one delivery at a time), the delivered
messages, the messages held by the running flush and the live queue are, in this order, the
messages queued so far: nothing is lost, doubled or reordered; an append before the swap is
taken by this flush and an append after it stays in the live queue; finishing the running
flush and running one more delivers every message exactly once in append order and leaves the
queue empty; and the steps of a flush that nothing interrupts amount to `SendMessages`. -/
theorem pending_queue_atomicity (p : Protocol) (steps : List FlushStep) (c : Client) :
    (∃ done,
      (FlushState.run p steps ⟨c, none⟩).client.sent =
        c.sent ++ done.flatMap (wire p c.version) ∧
      (FlushState.run p steps ⟨c, none⟩).client.server_summary.out_message_count =
        c.server_summary.out_message_count.add ((done.countP (counted p) : Nat) : Int) ∧
      done ++ (FlushState.run p steps ⟨c, none⟩).taken.getD [] ++
          (FlushState.run p steps ⟨c, none⟩).client.messages =
        c.messages ++ appendsOf steps) ∧
    ((FlushState.run p
        (steps ++
          (List.replicate (((FlushState.run p steps ⟨c, none⟩).taken.getD []).length + 1)
              FlushStep.deliver ++
            flushSteps (FlushState.run p steps ⟨c, none⟩).client.messages.length))
        ⟨c, none⟩).taken = none ∧
      (FlushState.run p
        (steps ++
          (List.replicate (((FlushState.run p steps ⟨c, none⟩).taken.getD []).length + 1)
              FlushStep.deliver ++
            flushSteps (FlushState.run p steps ⟨c, none⟩).client.messages.length))
        ⟨c, none⟩).client.messages = [] ∧
      (FlushState.run p
        (steps ++
          (List.replicate (((FlushState.run p steps ⟨c, none⟩).taken.getD []).length + 1)
              FlushStep.deliver ++
            flushSteps (FlushState.run p steps ⟨c, none⟩).client.messages.length))
        ⟨c, none⟩).client.sent =
        c.sent ++ (c.messages ++ appendsOf steps).flatMap (wire p c.version)) ∧
    (∀ before after : List Message,
      ((FlushState.run p
          (before.map FlushStep.append ++ [FlushStep.swap] ++ after.map FlushStep.append)
          ⟨{ c with messages := [] }, none⟩).taken.getD [] = before) ∧
      (FlushState.run p
          (before.map FlushStep.append ++ [FlushStep.swap] ++ after.map FlushStep.append)
          ⟨{ c with messages := [] }, none⟩).client.messages = after) ∧
    FlushState.run p (flushSteps c.messages.length) ⟨c, none⟩ =
      ⟨Client.SendMessages p c, none⟩ := by
  have hinv := run_invariant p c steps [] ⟨c, none⟩ ⟨[], by simp [Int64.add_zero]⟩
  simp only [List.nil_append] at hinv
  obtain ⟨done, hs, ho, hv, hq⟩ := hinv
  refine ⟨⟨done, hs, ho, hq⟩, ?_, ?_, flush_uninterrupted p c⟩
  · rw [run_append, flush_finish]
    refine ⟨rfl, rfl, ?_⟩
    show (FlushState.run p steps ⟨c, none⟩).client.sent ++ _ = _
    rw [hs]
    show _ ++ List.flatMap _ (wire p (FlushState.run p steps ⟨c, none⟩).client.version) = _
    rw [hv, ← hq]
    simp [List.append_assoc]
  · intro before after
    rw [run_append, run_append, run_cons]
    have a1 := run_appends p before ⟨{ c with messages := [] }, none⟩
    have a2 := swap_takes p
      (FlushState.run p (before.map FlushStep.append) ⟨{ c with messages := [] }, none⟩) a1.1
    have a3 := run_appends p after
      (FlushState.step p
        (FlushState.run p (before.map FlushStep.append) ⟨{ c with messages := [] }, none⟩)
        FlushStep.swap)
    have e0 : ∀ s : FlushState, FlushState.run p [] s = s := fun _ => rfl
    rw [e0, a3.1, a3.2, a2.1, a2.2, a1.2]
    simp

/-! ## The claims at sample inputs -/

/-- C2, the claim as first stated, at a sample input: with the counter at `MaxInt64`, one
delivered peer-IM message does not raise it by one; it wraps to `MinInt64`. -/
theorem outbound_counter_wraps :
    (Client.Write demoProtocol [Select.wt]
        ⟨{ maxedClient with wt := [some demoMsg] }, []⟩).1.client.server_summary.out_message_count.val =
      -9223372036854775808 ∧
    (Client.Write demoProtocol [Select.wt]
        ⟨{ maxedClient with wt := [some demoMsg] }, []⟩).1.client.server_summary.out_message_count.val ≠
      maxedClient.server_summary.out_message_count.val + 1 := by
  decide

/-- C2 at a sample input: a peer-IM message with metadata, received from the direct channel,
gives two transport sends and raises the counter from 10 to 11. -/
theorem outbound_counter_counts_witness :
    (demoMsg.Cmd = demoProtocol.MSG_RT ∨ demoMsg.Cmd = demoProtocol.MSG_IM ∨
      demoMsg.Cmd = demoProtocol.MSG_GROUP_IM ∨ demoMsg.Cmd = demoProtocol.MSG_ROOM_IM) ∧
    demoMsg.Meta = some ⟨[9]⟩ ∧
    (Client.Write demoProtocol [Select.wt]
        ⟨{ demoClient with wt := [some demoMsg] }, []⟩).1.client.sent =
      demoClient.sent ++ [metaMessage demoProtocol demoClient.version ⟨[9]⟩, demoMsg] ∧
    (Client.Write demoProtocol [Select.wt]
        ⟨{ demoClient with wt := [some demoMsg] }, []⟩).1.client.server_summary.out_message_count =
      demoClient.server_summary.out_message_count.add 1 ∧
    (demoClient.server_summary.out_message_count.add 1).val = 11 :=
  ⟨by decide, rfl,
    ((outbound_counter_counts demoProtocol [] ⟨demoClient, []⟩).2.2.2.2 demoClient [] demoMsg
      ⟨[9]⟩ (by decide) rfl).1,
    ((outbound_counter_counts demoProtocol [] ⟨demoClient, []⟩).2.2.2.2 demoClient [] demoMsg
      ⟨[9]⟩ (by decide) rfl).2,
    by decide⟩

/-- C4, the claim as first stated, at a sample input: on a client whose direct channel is
full and whose connection counter is at `MinInt64`, `onclose` does not return, sends no
sentinel, does not call `onClientClose`, and the connection counter wraps to `MaxInt64`. -/
theorem onclose_blocks_on_full_channel :
    (Client.onclose demoObserver ⟨stuckClient, []⟩).2 = false ∧
    (Client.onclose demoObserver ⟨stuckClient, []⟩).1.trace.count Event.onClientClose = 0 ∧
    (Client.onclose demoObserver ⟨stuckClient, []⟩).1.trace.count (Event.wtSend none) = 0 ∧
    (Client.onclose demoObserver ⟨stuckClient, []⟩).1.client.wt = stuckClient.wt ∧
    (Client.onclose demoObserver
        ⟨stuckClient, []⟩).1.client.server_summary.nconnections.val = 9223372036854775807 ∧
    (Client.onclose demoObserver ⟨stuckClient, []⟩).1.client.server_summary.nconnections.val ≠
      stuckClient.server_summary.nconnections.val - 1 := by
  have hs : ¬ (⟨stuckClient, []⟩ : World).client.wt.length < wtCapacity := by
    show ¬ (List.replicate 300 (some demoMsg)).length < 300
    rw [List.length_replicate]
    decide
  rw [onclose_eq, if_neg hs]
  refine ⟨rfl, ?_, ?_, rfl, ?_, ?_⟩
  · decide
  · decide
  · decide
  · decide

/-- C4 at a sample input: on the sample client `onclose` returns, and the counters go from 3
and 2 to 2 and 1. -/
theorem onclose_effects_witness :
    (⟨demoClient, []⟩ : World).client.wt.length < wtCapacity ∧
    (Client.onclose demoObserver ⟨demoClient, []⟩).2 = true ∧
    (Client.onclose demoObserver ⟨demoClient, []⟩).1.trace =
      [Event.addConnections (-1), Event.addClients (-1), Event.storeClosed 1,
        Event.wtSend none, Event.onClientClose] ∧
    -9223372036854775808 < (⟨demoClient, []⟩ : World).client.server_summary.nconnections.val ∧
    ((⟨demoClient, []⟩ : World).client.server_summary.nconnections.add (-1)).val =
      (⟨demoClient, []⟩ : World).client.server_summary.nconnections.val - 1 :=
  ⟨by decide,
    ((onclose_effects demoObserver ⟨demoClient, []⟩).1 (by decide)).1,
    ((onclose_effects demoObserver ⟨demoClient, []⟩).1 (by decide)).2.2.1,
    by decide,
    (onclose_effects demoObserver ⟨demoClient, []⟩).2.2.1 (by decide)⟩

/-- C5, the claim as first stated, at a sample input: a backlogged client (direct channel
full, throttle flag set) starts its close sequence, decrements the counters, and then stays
blocked in the sentinel send: `onClientClose` is not called. -/
theorem close_blocks_when_backlogged :
    (Client.Read demoObserver demoClock [] ⟨throttledClient, []⟩).2.2 = ReadStatus.closing ∧
    (Client.Read demoObserver demoClock [] ⟨throttledClient, []⟩).1.trace.count
      Event.onClientClose = 0 ∧
    (Client.Read demoObserver demoClock [] ⟨throttledClient, []⟩).1.trace.count
      (Event.addConnections (-1)) = 1 ∧
    (Client.Read demoObserver demoClock [] ⟨throttledClient, []⟩).1.trace.count
      (Event.addClients (-1)) = 1 := by
  have ht : (⟨throttledClient, []⟩ : World).client.tc > 0 := by decide
  have hs : ¬ throttledClient.wt.length < wtCapacity := by
    show ¬ (List.replicate 300 (some demoMsg)).length < 300
    rw [List.length_replicate]
    decide
  have e := (throttle_stops_reading demoObserver demoClock 0 [] ⟨throttledClient, []⟩ ht).2.2.1
  rw [e, onclose_eq]
  have hs2 : ¬ (((⟨throttledClient, []⟩ : World).addConnections 1).emit
      (Event.log LogLine.quit_read)).client.wt.length < wtCapacity := hs
  rw [if_neg hs2]
  refine ⟨?_, ?_, ?_, ?_⟩
  · simp [closeStatus, hs]
  · decide
  · decide
  · decide

/-- C5 at a sample input: a stream with two end-of-stream results closes once, with one
decrement of each counter. -/
theorem close_at_most_once_witness :
    (none ∈ [some demoMsg, none, none] ∨ (⟨demoClient, []⟩ : World).client.tc > 0) ∧
    (Client.Read demoObserver demoClock [some demoMsg, none, none] ⟨demoClient, []⟩).2.2 =
      closeStatus (clientAtClose demoObserver [some demoMsg, none, none]
        ((⟨demoClient, []⟩ : World).addConnections 1).client) ∧
    (Client.Read demoObserver demoClock [some demoMsg, none, none] ⟨demoClient, []⟩).2.2 =
      ReadStatus.exited ∧
    (Client.Read demoObserver demoClock [some demoMsg, none, none]
      ⟨demoClient, []⟩).1.trace.count (Event.addClients (-1)) = 1 ∧
    (Client.Read demoObserver demoClock [some demoMsg, none, none]
      ⟨demoClient, []⟩).1.trace.count Event.onClientClose = 1 :=
  ⟨Or.inl (by decide),
    (close_at_most_once demoObserver demoClock [some demoMsg, none, none]
      ⟨demoClient, []⟩).2.2.2.2.2 (Or.inl (by decide)),
    by decide, by decide, by decide⟩

/-- C6, the claim as first stated, at a sample input: on a backlogged client (direct channel
full, throttle flag set) the iteration reads nothing and starts the close sequence, but does
not exit: it is blocked in the sentinel send and `onClientClose` is not called. -/
theorem throttle_close_blocks :
    (Client.Read.loop demoObserver demoClock 2 [some demoMsg, none]
      ⟨throttledClient, []⟩).2.2 = ReadStatus.closing ∧
    (Client.Read.loop demoObserver demoClock 2 [some demoMsg, none]
      ⟨throttledClient, []⟩).2.1 = [some demoMsg, none] ∧
    (Client.Read.loop demoObserver demoClock 2 [some demoMsg, none]
      ⟨throttledClient, []⟩).1.trace.filter isDispatch = [] := by
  have ht : (⟨throttledClient, []⟩ : World).client.tc > 0 := by decide
  have hs : ¬ throttledClient.wt.length < wtCapacity := by
    show ¬ (List.replicate 300 (some demoMsg)).length < 300
    rw [List.length_replicate]
    decide
  have e := (throttle_stops_reading demoObserver demoClock 2 [some demoMsg, none]
    ⟨throttledClient, []⟩ ht).1
  rw [e, onclose_eq]
  have hs2 : ¬ ((⟨throttledClient, []⟩ : World).emit
      (Event.log LogLine.quit_read)).client.wt.length < wtCapacity := hs
  rw [if_neg hs2]
  refine ⟨?_, rfl, ?_⟩
  · simp [closeStatus, hs]
  · decide

/-- C6 at a sample input: with the throttle flag at 1 nothing is read. -/
theorem throttle_stops_reading_witness :
    (⟨{ demoClient with tc := 1 }, []⟩ : World).client.tc > 0 ∧
    (Client.Read.loop demoObserver demoClock 0 [some demoMsg]
        ⟨{ demoClient with tc := 1 }, []⟩ =
      ((Client.onclose demoObserver
        ((⟨{ demoClient with tc := 1 }, []⟩ : World).emit (Event.log LogLine.quit_read))).1,
        [some demoMsg], closeStatus ({ demoClient with tc := 1 } : Client))) ∧
    closeStatus ({ demoClient with tc := 1 } : Client) = ReadStatus.exited :=
  ⟨by decide,
    (throttle_stops_reading demoObserver demoClock 0 [some demoMsg]
      ⟨{ demoClient with tc := 1 }, []⟩ (by decide)).1,
    by decide⟩

/-- C7, the claim as first stated, at a sample input: with the throttle flag not set and the
direct channel full, `Read` on an end-of-stream result starts the close sequence but does not
exit: it is blocked in the sentinel send and `onClientClose` is not called. -/
theorem stream_close_blocks :
    (⟨fullClient, []⟩ : World).client.tc ≤ 0 ∧
    (Client.Read demoObserver demoClock ([].map some ++ none :: [some demoMsg])
      ⟨fullClient, []⟩).2.2 = ReadStatus.closing ∧
    (Client.Read demoObserver demoClock ([].map some ++ none :: [some demoMsg])
      ⟨fullClient, []⟩).1.trace.count Event.onClientClose = 0 := by
  have hs : ¬ fullClient.wt.length < wtCapacity := by
    show ¬ (List.replicate 300 (some demoMsg)).length < 300
    rw [List.length_replicate]
    decide
  have h := read_dispatches_stream demoObserver demoClock [] [some demoMsg] ⟨fullClient, []⟩
    (by decide) (fun _ _ h => h)
  refine ⟨by decide, ?_, ?_⟩
  · rw [h.2.1]
    exact if_neg hs
  · have e : Client.Read demoObserver demoClock ([].map some ++ none :: [some demoMsg])
        ⟨fullClient, []⟩ = _ :=
      loop_eof demoObserver demoClock 0 [some demoMsg]
        ((⟨fullClient, []⟩ : World).addConnections 1) (by decide)
    rw [e, afterClose_eq]
    have hs2 : closeStatus
        ({ ((⟨fullClient, []⟩ : World).addConnections 1) with
            trace := ((⟨fullClient, []⟩ : World).addConnections 1).trace ++
              readEvents demoClock 0 none } : World).client = ReadStatus.closing := by
      show closeStatus _ = _
      unfold closeStatus
      exact if_neg hs
    simp only [hs2]
    decide

/-- C7 at a sample input: one message, end-of-stream, then a message that is never read. -/
theorem read_dispatches_stream_witness :
    (⟨demoClient, []⟩ : World).client.tc ≤ 0 ∧
    (∀ c m, c.tc ≤ 0 → (demoObserver.onClientMessage c m).tc ≤ 0) ∧
    (Client.Read demoObserver demoClock ([demoMsg].map some ++ none :: [some demoMsg])
        ⟨demoClient, []⟩).2.1 = [some demoMsg] ∧
    ((Client.Read demoObserver demoClock ([demoMsg].map some ++ none :: [some demoMsg])
        ⟨demoClient, []⟩).1.trace.drop (⟨demoClient, []⟩ : World).trace.length).filter
          isDispatch =
      [demoMsg].flatMap (fun m => [Event.read (some m), Event.onClientMessage m]) ++
        [Event.read none] ++
        (if ([demoMsg].foldl demoObserver.onClientMessage
              ((⟨demoClient, []⟩ : World).addConnections 1).client).wt.length < wtCapacity
         then [Event.onClientClose] else []) ∧
    (Client.Read demoObserver demoClock ([demoMsg].map some ++ none :: [some demoMsg])
        ⟨demoClient, []⟩).2.2 = ReadStatus.exited :=
  ⟨by decide, fun _ _ h => h,
    (read_dispatches_stream demoObserver demoClock [demoMsg] [some demoMsg] ⟨demoClient, []⟩
      (by decide) (fun _ _ h => h)).1,
    (read_dispatches_stream demoObserver demoClock [demoMsg] [some demoMsg] ⟨demoClient, []⟩
      (by decide) (fun _ _ h => h)).2.2.2,
    by decide⟩

/-- C8 at a sample input: the sentinel, then one message and the timer: the message is
dropped, nothing is sent, and the loop exits. -/
theorem shutdown_drain_witness :
    Client.Write.main demoProtocol [Select.wt, Select.wt, Select.timer]
        ⟨{ demoClient with wt := [none, some demoMsg] }, []⟩ =
      (⟨{ demoClient with wt := [some demoMsg], conn_closed := 1 },
        [Event.close, Event.log LogLine.socket_closed]⟩, [Select.wt, Select.timer], false) ∧
    (Client.Write demoProtocol [Select.wt, Select.wt, Select.timer]
        ⟨{ demoClient with wt := [none, some demoMsg] }, []⟩).1.client.sent =
      (⟨{ demoClient with wt := [some demoMsg], conn_closed := 1 },
        [Event.close, Event.log LogLine.socket_closed]⟩ : World).client.sent :=
  ⟨rfl,
    (shutdown_drain demoProtocol [Select.wt, Select.wt, Select.timer]
      ⟨{ demoClient with wt := [none, some demoMsg] }, []⟩
      ⟨{ demoClient with wt := [some demoMsg], conn_closed := 1 },
        [Event.close, Event.log LogLine.socket_closed]⟩ [Select.wt, Select.timer] rfl).2.2.2.1⟩

end ImService
